import Mathlib

/-! # Advent of Code 2023, days 1 and 2 (C sources)

A shallow embedding of `src/day01/solution.c` and `src/day02/c/solution.c`.

Characters are their byte values (`Nat`); a text is a `List Nat`.
Platform assumptions (LP64): `long` has 64 bits, `int` has 32 bits, the
locale is the "C" locale, converting an out-of-range value to a signed
type wraps in two's complement, and so does an addition of two `long` values
in day 2. The `long sum` of day 1 grows by at most 99 per line and is kept
unbounded.
-/

/-- View an ASCII string literal as the list of its character codes. -/
def bytes (s : String) : List Nat := s.toList.map Char.toNat

/-! ## libc helpers -/

/-- C `isdigit` in the "C" locale: the characters 0 to 9. -/
def isdigit (c : Nat) : Bool := decide (48 ≤ c) && decide (c ≤ 57)

/-- C `isspace` in the "C" locale: space, \t, \n, \v, \f, \r. -/
def isspace (c : Nat) : Bool := c == 32 || (decide (9 ≤ c) && decide (c ≤ 13))

/-- Largest value of a `long`. -/
def LONG_MAX : Int := 9223372036854775807

/-- Smallest value of a `long`. -/
def LONG_MIN : Int := -9223372036854775808

/-- Value of a run of decimal digit characters, most significant first. -/
def digitsValue (ds : List Nat) : Nat := ds.foldl (fun acc d => 10 * acc + (d - 48)) 0

/-- Saturation that `strtol` applies to a value outside the range of `long`. -/
def clampLong (x : Int) : Int := max LONG_MIN (min LONG_MAX x)

/-- The C library function `strtol (s, &end, 10)`, as the C standard describes
it, on the characters `s` found at the pointer: skip white space, read an
optional sign, read the longest run of decimal digits. The result is the
converted value (saturated to the range of `long`) and the number of
characters by which `end` lies after the start. Without any digit the value is
0 and `end` is the start itself. -/
def strtol (s : List Nat) : Int × Nat :=
  let s1 := s.dropWhile isspace
  let neg : Bool := s1.head? == some 45
  let s2 := if s1.head? == some 45 || s1.head? == some 43 then s1.tail else s1
  let ds := s2.takeWhile isdigit
  if ds.isEmpty then (0, 0)
  else (clampLong (if neg then -(digitsValue ds : Int) else (digitsValue ds : Int)),
        s.length - s2.length + ds.length)

/-- Conversion of a value to `long` (64 bits, two's complement). -/
def wrapLong (x : Int) : Int := (x + 9223372036854775808) % 18446744073709551616 - 9223372036854775808

/-- Conversion of a value to `int` (32 bits, two's complement). -/
def wrapInt (x : Int) : Int := (x + 2147483648) % 4294967296 - 2147483648

/-! ## Day 1: `src/day01/solution.c` -/

namespace Day01

/-- The local variables of `main` that live across loop iterations:
`sum`, the buffer `ns` (three characters) and `ptr` as an offset into `ns`.
`sum` is a `long`; a line adds at most 99, so it is kept unbounded here. -/
structure Locals where
  sum : Int
  ns : List Nat
  ptr : Nat
  deriving DecidableEq, Repr

/-- State before the loop: `sum = 0`, `ns = {0, 0, 0}`, `ptr = ns`. -/
def init : Locals := { sum := 0, ns := [0, 0, 0], ptr := 0 }

/-- The statement `ns[1] = (ns[1] == '\0') ? ns[0] : ns[1];`. -/
def duplicateFirst (ns : List Nat) : List Nat :=
  ns.set 1 (if ns.getD 1 0 = 0 then ns.getD 0 0 else ns.getD 1 0)

/-- One iteration of the `while` loop for the character `c` read by `fgetc`. -/
def body (st : Locals) (c : Nat) : Locals :=
  -- if (isdigit (c)) { *ptr = (char)c; ptr = ns + 1; }
  let st1 : Locals :=
    if isdigit c then { st with ns := st.ns.set st.ptr c, ptr := 1 } else st
  -- if (c == '\n') { ... }
  if c = 10 then
    -- ns[1] = (ns[1] == '\0') ? ns[0] : ns[1];
    let ns1 := duplicateFirst st1.ns
    -- sum += strtol (ns, NULL, 10); ptr = ns; ns[1] = '\0';
    { sum := st1.sum + (strtol ns1).1, ns := ns1.set 1 0, ptr := 0 }
  else st1

/-- The `while ((c = fgetc (fptr)) != EOF)` loop over the whole stream. -/
def loop (st : Locals) (input : List Nat) : Locals := input.foldl body st

/-- The value printed by `main` for the file contents `input`. -/
def main (input : List Nat) : Int := (loop init input).sum

/-- Value of the first decimal digit of a line, if it has one. -/
def firstDigit (line : List Nat) : Option Nat :=
  ((line.filter isdigit).head?).map (fun c => c - 48)

/-- Value of the last decimal digit of a line, if it has one. -/
def lastDigit (line : List Nat) : Option Nat :=
  ((line.filter isdigit).getLast?).map (fun c => c - 48)

/-- The text made of the given lines, each closed by a newline. -/
def unlines (ls : List (List Nat)) : List Nat :=
  match ls with
  | [] => []
  | l :: rest => l ++ [10] ++ unlines rest

/-- The characters the loop acts on: decimal digits and the newline. -/
def significant (c : Nat) : Bool := isdigit c || c == 10

/-- A character of the buffer is NUL or a decimal digit. -/
def nulOrDigit (c : Nat) : Bool := c == 0 || isdigit c

/-- The shape of the locals: the write pointer is `ns` or `ns + 1`, the buffer
has its three characters, `ns[2]` is NUL, `ns[0]` and `ns[1]` are NUL or a
digit, and a digit in `ns[1]` comes with a digit in `ns[0]`. -/
def bufferOk (st : Locals) : Bool :=
  decide (st.ptr ≤ 1) && decide (st.ns.length = 3) && st.ns.getD 2 1 == 0
    && nulOrDigit (st.ns.getD 0 1) && nulOrDigit (st.ns.getD 1 1)
    && (!isdigit (st.ns.getD 1 1) || isdigit (st.ns.getD 0 1))

/-- The number of decimal digits among the characters of a C string, up to its NUL. -/
def digitCount (ns : List Nat) : Nat := ((ns.takeWhile (fun c => c != 0)).filter isdigit).length

end Day01

/-! ## Day 2: `src/day02/c/solution.c` -/

namespace Day02

/-- The record `game_t`: the id of the game and the three counters. -/
structure game_t where
  number : Int
  blue : Int
  red : Int
  green : Int
  deriving DecidableEq, Repr

/-- The test `is_game_passed`: at most 12 red, 13 green and 14 blue cubes. -/
def is_game_passed (g : game_t) : Bool :=
  decide (g.red ≤ 12) && decide (g.green ≤ 13) && decide (g.blue ≤ 14)

/-- What `parse_and_check_game` holds at the head of its `while` loop: the
record behind `game`, the position `*cursor` as an offset into the line
buffer, and the local `number`, which is `none` until it is first assigned. -/
structure Scan where
  game : game_t
  cursor : Nat
  number : Option Int
  deriving DecidableEq, Repr

/-- How a run of the scanner stands after some passes: still at the loop head, returned
a value, or read a character outside the line buffer. -/
inductive Outcome where
  | running (s : Scan)
  | ret (value : Int) (s : Scan)
  | fault
  deriving DecidableEq, Repr

/-- The value read from the local `number`; `junk` is what it holds while it
is still unassigned. -/
def pending (junk : Int) (s : Scan) : Int := s.number.getD junk

/-- The loop test and the `switch` of `parse_and_check_game` for the character
`c` under the cursor; `rest` is what follows `c` in the buffer. -/
def dispatch (junk : Int) (s : Scan) (c : Nat) (rest : List Nat) : Outcome :=
  -- while (**cursor != '\n' && **cursor != '\0') ... return after the loop
  if c = 10 ∨ c = 0 then
    .ret (if is_game_passed s.game then wrapInt s.game.number else 0) s
  -- case ',': case ' ': case '\r': break;
  else if c = 44 ∨ c = 32 ∨ c = 13 then
    .running { s with cursor := s.cursor + 1 }
  -- case ';'
  else if c = 59 then
    if is_game_passed s.game then
      .running { s with game := { s.game with red := 0, blue := 0, green := 0 },
                        cursor := s.cursor + 1 }
    else .ret 0 s
  -- case 'r': *cursor += 2; game->red += number;
  else if c = 114 then
    .running { s with game := { s.game with red := wrapLong (s.game.red + pending junk s) },
                      cursor := s.cursor + 2 + 1 }
  -- case 'b': *cursor += 3; game->blue += number;
  else if c = 98 then
    .running { s with game := { s.game with blue := wrapLong (s.game.blue + pending junk s) },
                      cursor := s.cursor + 3 + 1 }
  -- case 'g': *cursor += 4; game->green += number;
  else if c = 103 then
    .running { s with game := { s.game with green := wrapLong (s.game.green + pending junk s) },
                      cursor := s.cursor + 4 + 1 }
  -- default: number = strtol (*cursor, cursor, 10); if (number == 0) return 0;
  else
    let r := strtol (c :: rest)
    if r.1 = 0 then .ret 0 { s with cursor := s.cursor + r.2, number := some r.1 }
    else .running { s with cursor := s.cursor + r.2 + 1, number := some r.1 }

/-- One pass through the `while` loop of `parse_and_check_game`, the loop
test included, ending with `(*cursor)++`. The buffer is `line` followed by its
terminating NUL; a cursor outside the buffer is a fault. -/
def body (junk : Int) (line : List Nat) (s : Scan) : Outcome :=
  match (line ++ [0]).drop s.cursor with
  | [] => .fault
  | c :: rest => dispatch junk s c rest

/-- At most `fuel` passes through the loop, starting at the loop head. -/
def loop (junk : Int) (line : List Nat) : Nat → Scan → Outcome
  | 0, s => .running s
  | fuel + 1, s =>
    match body junk line s with
    | .running s1 => loop junk line fuel s1
    | o => o

/-- The state at the first loop head: "Game" skipped, the id parsed into
`game->number`, the colon skipped. -/
def enter (line : List Nat) (game : game_t) (cursor : Nat) : Outcome :=
  match (line ++ [0]).drop (cursor + 4) with
  | [] => .fault
  | c :: rest =>
    let r := strtol (c :: rest)
    .running { game := { game with number := r.1 }, cursor := cursor + 4 + r.2 + 1, number := none }

/-- The function `parse_and_check_game (game, cursor)` on the buffer holding
`line`. Every pass moves the cursor forward and a cursor behind the NUL is a
fault, so `line.length + 2` passes are enough (see `parse_and_check_game_returns`). -/
def parse_and_check_game (junk : Int) (line : List Nat) (game : game_t) (cursor : Nat) : Outcome :=
  match enter line game cursor with
  | .running s => loop junk line (line.length + 2) s
  | o => o

/-- The lines that successive `getline` calls deliver: each with its newline,
the last one possibly without. -/
def getlines : List Nat → List (List Nat)
  | [] => []
  | c :: cs =>
    if c = 10 then [10] :: getlines cs
    else
      match getlines cs with
      | [] => [[c]]
      | l :: ls => (c :: l) :: ls

/-- The `while (getline (...) > 0)` loop of `main` over the remaining lines;
`i` counts the lines read so far, `junk i` is the unassigned `number` of the
call for line `i`. The result is `none` when a call faults. -/
def main_loop (junk : Nat → Int) : Nat → Int → List (List Nat) → Option Int
  | _, sum, [] => some sum
  | i, sum, line :: ls =>
    -- char *cursor = line; game_t game = { 0, 0, 0, 0 };
    match parse_and_check_game (junk i) line { number := 0, blue := 0, red := 0, green := 0 } 0 with
    | .ret v s =>
      -- if (parse_and_check_game (&game, &cursor) > 0) sum += game.number;
      main_loop junk (i + 1) (if 0 < v then wrapInt (sum + s.game.number) else sum) ls
    | _ => none

/-- The value printed by `main` for the file contents `input`. -/
def main (junk : Nat → Int) (input : List Nat) : Option Int :=
  main_loop junk 0 0 (getlines input)

/-- A state `s` is a loop head that the call `parse_and_check_game (game, cursor)`
on `line` passes through. -/
def arrivesAt (junk : Int) (line : List Nat) (game : game_t) (cursor : Nat) (s : Scan) : Prop :=
  ∃ s0 k, enter line game cursor = .running s0 ∧ loop junk line k s0 = .running s

/-! ### The grammar of a game record

`"Game <id>: <group>[; <group>]*"`, a group being `"<count> <color>"` pairs
separated by `", "`. Numbers are kept as their decimal digit characters. -/

/-- The three colors of the grammar. -/
inductive Color where
  | red
  | green
  | blue
  deriving DecidableEq, Repr

/-- Spelling of a color: "red", "green", "blue". -/
def Color.spelling : Color → List Nat
  | .red => [114, 101, 100]
  | .green => [103, 114, 101, 101, 110]
  | .blue => [98, 108, 117, 101]

/-- A pair `"<count> <color>"`; the count is given by its digit characters. -/
structure Draw where
  count : List Nat
  color : Color
  deriving DecidableEq, Repr

/-- A record: the digit characters of the id and the groups. -/
structure Record where
  id : List Nat
  groups : List (List Draw)
  deriving DecidableEq, Repr

/-- A decimal number: a non-empty run of decimal digit characters. -/
def isNumeral (ds : List Nat) : Bool := !ds.isEmpty && ds.all isdigit

/-- Text of a pair: count, space, color. -/
def renderDraw (d : Draw) : List Nat := d.count ++ [32] ++ d.color.spelling

/-- Text of a group: its pairs separated by ", ". -/
def renderGroup : List Draw → List Nat
  | [] => []
  | [d] => renderDraw d
  | d :: e :: ds => renderDraw d ++ [44, 32] ++ renderGroup (e :: ds)

/-- Text of the groups of a record, separated by "; ". -/
def renderGroups : List (List Draw) → List Nat
  | [] => []
  | [g] => renderGroup g
  | g :: h :: gs => renderGroup g ++ [59, 32] ++ renderGroups (h :: gs)

/-- Text of a record, without line terminator: "Game ", id, ": ", groups. -/
def renderRecord (r : Record) : List Nat :=
  [71, 97, 109, 101, 32] ++ r.id ++ [58, 32] ++ renderGroups r.groups

/-- Number of cubes that a pair declares. -/
def Draw.value (d : Draw) : Nat := digitsValue d.count

/-- Total that a group declares for one color. -/
def groupTotal (c : Color) (g : List Draw) : Nat :=
  ((g.filter (fun d => d.color = c)).map Draw.value).sum

/-- A group satisfies the thresholds: red ≤ 12, green ≤ 13, blue ≤ 14. -/
def groupOk (g : List Draw) : Bool :=
  decide (groupTotal .red g ≤ 12) && decide (groupTotal .green g ≤ 13)
    && decide (groupTotal .blue g ≤ 14)

/-- The id of a record as a number. -/
def Record.idValue (r : Record) : Nat := digitsValue r.id

/-- The text of the record follows the grammar: the id and every count are
decimal numbers. Counts may be 0 and no range is imposed. -/
def Record.numeric (r : Record) : Bool :=
  isNumeral r.id && r.groups.all (fun g => g.all (fun d => isNumeral d.count))

/-- The per-color totals of a group are within the range of `int`. -/
def groupInRange (g : List Draw) : Bool :=
  decide (groupTotal .red g < 2147483648) && decide (groupTotal .green g < 2147483648)
    && decide (groupTotal .blue g < 2147483648)

/-- A well-formed record: it follows the grammar, every count is positive,
the id and the totals of every group are within the range of `int`. -/
def Record.wellFormed (r : Record) : Bool :=
  r.numeric && decide (r.idValue < 2147483648)
    && r.groups.all (fun g => groupInRange g && g.all (fun d => decide (0 < d.value)))

/-- Every group of the record satisfies the thresholds. -/
def Record.passes (r : Record) : Bool := r.groups.all groupOk

/-- The effect of a color case of the `switch` on the record. -/
def addCubes (g : game_t) (c : Color) (n : Int) : game_t :=
  match c with
  | .red => { g with red := wrapLong (g.red + n) }
  | .green => { g with green := wrapLong (g.green + n) }
  | .blue => { g with blue := wrapLong (g.blue + n) }

/-- The counter of a record for a color. -/
def game_t.cubes (g : game_t) : Color → Int
  | .red => g.red
  | .green => g.green
  | .blue => g.blue

/-- The record after the pairs of a group were scanned in order. -/
def tally (g : game_t) (ds : List Draw) : game_t :=
  ds.foldl (fun acc d => addCubes acc d.color (clampLong (d.value : Int))) g

/-- What a record contributes to the total: its id if it passes, else 0. -/
def Record.score (r : Record) : Nat := if r.passes then r.idValue else 0

/-- Text of a file of records, one per line. With `closed` the last line has
its newline, without it the last line ends at the end of the file. -/
def renderInput : List Record → Bool → List Nat
  | [], _ => []
  | [r], false => renderRecord r
  | r :: rs, closed => renderRecord r ++ [10] ++ renderInput rs closed

/-- The decimal digit characters of a number. -/
def numeral (n : Nat) : List Nat := (Nat.toDigits 10 n).map Char.toNat

/-- The pair "n color". -/
def draw (n : Nat) (c : Color) : Draw := { count := numeral n, color := c }

/-- The record "Game n: groups". -/
def game (n : Nat) (groups : List (List Draw)) : Record := { id := numeral n, groups := groups }

/-- The five games of the example in the header comment of the source. -/
def exampleGames : List Record :=
  [ game 1 [[draw 3 .blue, draw 4 .red], [draw 1 .red, draw 2 .green, draw 6 .blue],
            [draw 2 .green]],
    game 2 [[draw 1 .blue, draw 2 .green], [draw 3 .green, draw 4 .blue, draw 1 .red],
            [draw 1 .green, draw 1 .blue]],
    game 3 [[draw 8 .green, draw 6 .blue, draw 20 .red],
            [draw 5 .blue, draw 4 .red, draw 13 .green], [draw 5 .green, draw 1 .red]],
    game 4 [[draw 1 .green, draw 3 .red, draw 6 .blue], [draw 3 .green, draw 6 .red],
            [draw 3 .green, draw 15 .blue, draw 14 .red]],
    game 5 [[draw 6 .red, draw 1 .blue, draw 3 .green],
            [draw 2 .blue, draw 1 .red, draw 2 .green]] ]

/-- The text of the example in the header comment of the source. -/
def exampleText : List Nat :=
  bytes "Game 1: 3 blue, 4 red; 1 red, 2 green, 6 blue; 2 green\n"
    ++ bytes "Game 2: 1 blue, 2 green; 3 green, 4 blue, 1 red; 1 green, 1 blue\n"
    ++ bytes "Game 3: 8 green, 6 blue, 20 red; 5 blue, 4 red, 13 green; 5 green, 1 red\n"
    ++ bytes "Game 4: 1 green, 3 red, 6 blue; 3 green, 6 red; 3 green, 15 blue, 14 red\n"
    ++ bytes "Game 5: 6 red, 1 blue, 3 green; 2 blue, 1 red, 2 green\n"

/-- The record "Game 1: 3 blue, 4 red; 2 green". -/
def sampleRecord : Record := game 1 [[draw 3 .blue, draw 4 .red], [draw 2 .green]]

/-- Two well-formed records whose ids add up to more than the largest `int`. -/
def overflowGames : List Record :=
  [game 2147483647 [[draw 1 .red]], game 2147483647 [[draw 1 .red]]]

/-- What the scan makes of a group when the id is `n`: every count is
positive and the tallied counters pass `is_game_passed`. -/
def accepted (n : Int) (g : List Draw) : Bool :=
  g.all (fun d => decide (0 < d.value))
    && is_game_passed (tally { number := n, blue := 0, red := 0, green := 0 } g)

/-- The character of the buffer under the cursor position `i`, if `i` lies in
the buffer (the line and its terminating NUL). -/
def charAt (line : List Nat) (i : Nat) : Option Nat := (line ++ [0])[i]?

/-- A character at which a group ends: the semicolon, the newline, the NUL. -/
def isBoundary (c : Nat) : Bool := c == 59 || c == 10 || c == 0

/-- A character that selects a color case of the `switch`: r, b, g. -/
def isColorLetter (c : Nat) : Bool := c == 114 || c == 98 || c == 103

/-- Text of a record before its groups: "Game ", id, ": ". -/
def header (r : Record) : List Nat := [71, 97, 109, 101, 32] ++ r.id ++ [58, 32]

/-- Text of groups that are each closed by "; ". -/
def renderDone : List (List Draw) → List Nat
  | [] => []
  | g :: gs => renderGroup g ++ [59, 32] ++ renderDone gs

/-- Every loop head that the scan passes from `s` on with the cursor before
`bound` satisfies `Q`. -/
def headsBefore (junk : Int) (line : List Nat) (s : Scan) (bound : Nat) (Q : Scan → Prop) : Prop :=
  ∀ j sj, loop junk line j s = .running sj → sj.cursor < bound → Q sj

/-- The cursor stands right behind the text of a group `g` of the record, and the
record holds the id and the counters tallied over `g` alone. A record without
groups counts as one empty group. -/
def atGroupEnd (r : Record) (s : Scan) : Prop :=
  ∃ done g rest, (r.groups = done ++ g :: rest ∨ (r.groups = [] ∧ done = [] ∧ g = []))
    ∧ s.cursor = (header r ++ renderDone done ++ renderGroup g).length
    ∧ s.game = tally { number := clampLong (r.idValue : Int), blue := 0, red := 0, green := 0 } g

/-- The cursor stands on the first letter of the color word of a pair of the
line, and the pending count is the converted count of that pair. -/
def atColor (line : List Nat) (s : Scan) : Prop :=
  ∃ pre d rest, line = pre ++ renderDraw d ++ rest ∧ isNumeral d.count = true
    ∧ s.cursor = pre.length + d.count.length + 1
    ∧ s.number = some (clampLong (d.value : Int))

/-- What holds at every loop head of the scan of a well-formed record: the id
is kept; on a boundary character the state is that of a group end; on r, b or
g the state is that of a color word. -/
def Head (r : Record) (line : List Nat) (s : Scan) : Prop :=
  s.game.number = clampLong (r.idValue : Int)
    ∧ (∀ c, charAt line s.cursor = some c → isBoundary c = true → atGroupEnd r s)
    ∧ (∀ c, charAt line s.cursor = some c → isColorLetter c = true → atColor line s)

/-- An ASCII letter, A to Z or a to z. -/
def isLetter (c : Nat) : Bool :=
  (decide (65 ≤ c) && decide (c ≤ 90)) || (decide (97 ≤ c) && decide (c ≤ 122))

end Day02

/-! ## Day 1: lemmas -/

namespace Day01

theorem strtol_two_offsets :
    ∀ a < 10, ∀ b < 10, (strtol [48 + a, 48 + b, 0]).1 = ((10 * a + b : Nat) : Int) := by
  decide

theorem strtol_two_digits (d1 d2 : Nat) (h1 : isdigit d1 = true) (h2 : isdigit d2 = true) :
    (strtol [d1, d2, 0]).1 = ((10 * (d1 - 48) + (d2 - 48) : Nat) : Int) := by
  simp [isdigit] at h1 h2
  have h := strtol_two_offsets (d1 - 48) (by omega) (d2 - 48) (by omega)
  rwa [show 48 + (d1 - 48) = d1 by omega, show 48 + (d2 - 48) = d2 by omega] at h

theorem loop_append (st : Locals) (xs ys : List Nat) :
    loop st (xs ++ ys) = loop (loop st xs) ys := by
  simp [loop, List.foldl_append]

theorem loop_cons (st : Locals) (c : Nat) (cs : List Nat) :
    loop st (c :: cs) = loop (body st c) cs := rfl

theorem body_other (st : Locals) (c : Nat) (hd : isdigit c = false) (hn : c ≠ 10) :
    body st c = st := by
  simp [body, hd, hn]

theorem body_digit (st : Locals) (c : Nat) (hd : isdigit c = true) :
    body st c = { st with ns := st.ns.set st.ptr c, ptr := 1 } := by
  have hn : c ≠ 10 := by
    intro h
    subst h
    simp [isdigit] at hd
  simp [body, hd, hn]

/-- Every state of the loop has a three-character buffer whose last character
is NUL, and the write pointer is `ns` or `ns + 1`. -/
theorem body_shape (st : Locals) (c : Nat)
    (h : ∃ a b, st.ns = [a, b, 0] ∧ (st.ptr = 0 ∨ st.ptr = 1)) :
    ∃ a b, (body st c).ns = [a, b, 0] ∧ ((body st c).ptr = 0 ∨ (body st c).ptr = 1) := by
  obtain ⟨a, b, hns, hp⟩ := h
  have h10 : isdigit 10 = false := by decide
  unfold body
  by_cases hn : c = 10
  · subst hn
    simp [hns, h10, duplicateFirst]
  · rcases hp with hp | hp <;> by_cases hd : isdigit c = true <;> simp [hns, hp, hd, hn]

theorem loop_shape (input : List Nat) (st : Locals)
    (h : ∃ a b, st.ns = [a, b, 0] ∧ (st.ptr = 0 ∨ st.ptr = 1)) :
    ∃ a b, (loop st input).ns = [a, b, 0] ∧ ((loop st input).ptr = 0 ∨ (loop st input).ptr = 1) := by
  induction input generalizing st with
  | nil => simpa [loop] using h
  | cons c cs ih =>
    rw [loop_cons]
    exact ih _ (body_shape st c h)

/-- After a newline the second slot is empty and the write pointer is back at
`ns`; the first slot keeps its character. -/
theorem body_newline_shape (st : Locals)
    (h : ∃ a b, st.ns = [a, b, 0] ∧ (st.ptr = 0 ∨ st.ptr = 1)) :
    ∃ a, (body st 10).ns = [a, 0, 0] ∧ (body st 10).ptr = 0 := by
  obtain ⟨a, b, hns, hp⟩ := h
  unfold body
  simp [hns, isdigit, duplicateFirst]

/-- At the start of a line the state is `sum`, `ns = {a, 0, 0}`, `ptr = ns`. -/
theorem line_start (pre : List Nat) (hpre : pre = [] ∨ pre.getLast? = some 10) :
    ∃ a, loop init pre = { sum := (loop init pre).sum, ns := [a, 0, 0], ptr := 0 } := by
  rcases hpre with h | h
  · subst h
    exact ⟨0, rfl⟩
  · obtain ⟨p, rfl⟩ : ∃ p, pre = p ++ [10] := by
      rcases List.eq_nil_or_concat pre with h0 | ⟨p, x, hx⟩
      · subst h0
        simp at h
      · subst hx
        simp at h
        exact ⟨p, by simp [h]⟩
    have hs := loop_shape p init ⟨0, 0, rfl, Or.inl rfl⟩
    obtain ⟨a, hns, hp⟩ := body_newline_shape (loop init p) hs
    refine ⟨a, ?_⟩
    have he : loop init (p ++ [10]) = body (loop init p) 10 := by
      rw [loop_append]
      rfl
    rw [he]
    cases hb : body (loop init p) 10 with
    | mk s n q =>
      rw [hb] at hns hp
      simp at hns hp
      simp [hns, hp]

/-- Scanning the rest of a line once the first digit is stored: only the
second slot changes, to the last digit met. -/
theorem loop_after_first (line : List Nat) (sum : Int) (a b : Nat) (hline : 10 ∉ line) :
    loop { sum := sum, ns := [a, b, 0], ptr := 1 } line
      = { sum := sum, ns := [a, ((line.filter isdigit).getLast?).getD b, 0], ptr := 1 } := by
  induction line generalizing b with
  | nil => simp [loop]
  | cons c cs ih =>
    have hc : c ≠ 10 := fun h => hline (by simp [h])
    have hcs : 10 ∉ cs := fun h => hline (by simp [h])
    rw [loop_cons]
    by_cases hd : isdigit c = true
    · rw [body_digit _ _ hd]
      simp only [List.set_cons_succ, List.set_cons_zero]
      rw [ih _ hcs]
      simp only [List.filter_cons, hd, if_true]
      cases hf : cs.filter isdigit with
      | nil => simp
      | cons x xs => simp [List.getLast?_eq_getLast (x :: xs) (by simp)]
    · simp only [Bool.not_eq_true] at hd
      rw [body_other _ _ hd hc, ih _ hcs]
      simp [List.filter_cons, hd]

/-- Scanning a whole line from its start. -/
theorem loop_line (line : List Nat) (sum : Int) (a : Nat) (hline : 10 ∉ line) :
    loop { sum := sum, ns := [a, 0, 0], ptr := 0 } line
      = match line.filter isdigit with
        | [] => { sum := sum, ns := [a, 0, 0], ptr := 0 }
        | d :: ds => { sum := sum, ns := [d, (ds.getLast?).getD 0, 0], ptr := 1 } := by
  induction line with
  | nil => simp [loop]
  | cons c cs ih =>
    have hc : c ≠ 10 := fun h => hline (by simp [h])
    have hcs : 10 ∉ cs := fun h => hline (by simp [h])
    rw [loop_cons]
    by_cases hd : isdigit c = true
    · rw [body_digit _ _ hd]
      simp only [List.set_cons_zero]
      rw [loop_after_first _ _ _ _ hcs]
      simp [List.filter_cons, hd]
    · simp only [Bool.not_eq_true] at hd
      rw [body_other _ _ hd hc, ih hcs]
      simp [List.filter_cons, hd]

theorem isdigit_ne_zero (d : Nat) (h : isdigit d = true) : d ≠ 0 := by
  intro h0
  subst h0
  simp [isdigit] at h

/-- The newline step on a line that stored the digits `d` (first) and then `ds`. -/
theorem body_newline_digits (sum : Int) (d : Nat) (ds : List Nat)
    (hd : isdigit d = true) (hds : ∀ x ∈ ds, isdigit x = true) :
    body { sum := sum, ns := [d, (ds.getLast?).getD 0, 0], ptr := 1 } 10
      = { sum := sum + ((10 * (d - 48) + (((d :: ds).getLast?).getD 0 - 48) : Nat) : Int),
          ns := [d, 0, 0], ptr := 0 } := by
  have h10 : isdigit 10 = false := by decide
  rcases List.eq_nil_or_concat ds with h | ⟨p, x, hx⟩
  · subst h
    simp [body, h10, duplicateFirst, strtol_two_digits d d hd hd]
  · subst hx
    have hx : isdigit x = true := hds x (by simp)
    have hx0 : x ≠ 0 := isdigit_ne_zero x hx
    simp [body, h10, hx0, duplicateFirst, strtol_two_digits d x hd hx, List.getLast?_cons]

/-- The amount a line with at least one digit adds, from any line start. -/
theorem line_adds (line : List Nat) (sum : Int) (a d : Nat) (ds : List Nat) (hline : 10 ∉ line)
    (hf : line.filter isdigit = d :: ds) :
    loop { sum := sum, ns := [a, 0, 0], ptr := 0 } (line ++ [10])
      = { sum := sum + ((10 * (d - 48) + (((d :: ds).getLast?).getD 0 - 48) : Nat) : Int),
          ns := [d, 0, 0], ptr := 0 } := by
  have hall : ∀ x ∈ d :: ds, isdigit x = true := by
    intro x hx
    rw [← hf] at hx
    exact (List.mem_filter.mp hx).2
  rw [loop_append, loop_line _ _ _ hline, hf]
  show body _ 10 = _
  exact body_newline_digits sum d ds (hall d (by simp)) (fun x hx => hall x (by simp [hx]))

/-- The amount a line without any digit adds, from any line start: the
character left in the first slot is duplicated and converted. -/
theorem line_without_digit_adds (line : List Nat) (sum : Int) (a : Nat) (hline : 10 ∉ line)
    (hf : line.filter isdigit = []) :
    loop { sum := sum, ns := [a, 0, 0], ptr := 0 } (line ++ [10])
      = { sum := sum + (strtol [a, a, 0]).1, ns := [a, 0, 0], ptr := 0 } := by
  rw [loop_append, loop_line _ _ _ hline, hf]
  show body _ 10 = _
  have h10 : isdigit 10 = false := by decide
  simp [body, h10, duplicateFirst]

/-- Characters other than the newline leave `sum` alone. -/
theorem loop_sum_no_newline (t : List Nat) (st : Locals) (ht : 10 ∉ t) :
    (loop st t).sum = st.sum := by
  induction t generalizing st with
  | nil => rfl
  | cons c cs ih =>
    have hc : c ≠ 10 := fun h => ht (by simp [h])
    have hcs : 10 ∉ cs := fun h => ht (by simp [h])
    rw [loop_cons, ih _ hcs]
    simp [body, hc]
    split <;> rfl

/-- The total of a text of newline-terminated lines that all hold a digit is
the sum of the totals of the lines taken alone. -/
theorem main_unlines_with_digits (ls : List (List Nat))
    (h : ∀ l ∈ ls, 10 ∉ l ∧ l.filter isdigit ≠ []) :
    main (unlines ls) = (ls.map (fun l => main (l ++ [10]))).sum := by
  have key : ∀ (ls : List (List Nat)), (∀ l ∈ ls, 10 ∉ l ∧ l.filter isdigit ≠ []) →
      ∀ (sum : Int) (a : Nat),
        (loop { sum := sum, ns := [a, 0, 0], ptr := 0 } (unlines ls)).sum
          = sum + (ls.map (fun l => main (l ++ [10]))).sum := by
    intro ls
    induction ls with
    | nil => intro _ sum a; simp [unlines, loop]
    | cons l rest ih =>
      intro hl sum a
      obtain ⟨hnl, hdig⟩ := hl l (by simp)
      obtain ⟨d, ds, hf⟩ : ∃ d ds, l.filter isdigit = d :: ds := by
        cases hfl : l.filter isdigit with
        | nil => exact absurd hfl hdig
        | cons d ds => exact ⟨d, ds, rfl⟩
      have hrest : ∀ x ∈ rest, 10 ∉ x ∧ x.filter isdigit ≠ [] :=
        fun x hx => hl x (by simp [hx])
      have h0 : main (l ++ [10])
          = ((10 * (d - 48) + (((d :: ds).getLast?).getD 0 - 48) : Nat) : Int) := by
        have := line_adds l 0 0 d ds hnl hf
        simp only [main, init, this]
        simp
      simp only [unlines, List.map_cons, List.sum_cons]
      rw [loop_append, line_adds l sum a d ds hnl hf, ih hrest, h0]
      ring
  have := key ls h 0 0
  simpa [main, init] using this

/-- Text that is not closed by a newline adds nothing: the sum changes only
when a newline is read. -/
theorem main_append_no_newline (s t : List Nat) (ht : 10 ∉ t) : main (s ++ t) = main s := by
  simp only [main, loop_append]
  exact loop_sum_no_newline t _ ht

/-- Reordering newline-terminated lines that all hold a digit keeps the total. -/
theorem main_unlines_perm (ls ms : List (List Nat)) (hperm : ls.Perm ms)
    (h : ∀ l ∈ ls, 10 ∉ l ∧ l.filter isdigit ≠ []) :
    main (unlines ls) = main (unlines ms) := by
  rw [main_unlines_with_digits ls h,
    main_unlines_with_digits ms (fun l hl => h l (hperm.mem_iff.mpr hl))]
  exact (hperm.map _).sum_eq

end Day01

/-! ## Day 1: the claims -/

/-- C1: in any input, a newline-terminated line that contains at least one
decimal digit adds ten times its first digit plus its last digit to the sum,
whatever lines precede it. -/
theorem day01_line_adds_first_and_last (pre line : List Nat) (a b : Nat)
    (hpre : pre = [] ∨ pre.getLast? = some 10) (hline : 10 ∉ line)
    (hfirst : Day01.firstDigit line = some a) (hlast : Day01.lastDigit line = some b) :
    Day01.main (pre ++ line ++ [10]) = Day01.main pre + ((10 * a + b : Nat) : Int) := by
  obtain ⟨x, hx⟩ := Day01.line_start pre hpre
  cases hf : line.filter isdigit with
  | nil => simp [Day01.firstDigit, hf] at hfirst
  | cons d ds =>
    simp only [Day01.firstDigit, Day01.lastDigit, hf, List.head?_cons, Option.map_some',
      Option.some.injEq] at hfirst hlast
    have hl : (((d :: ds).getLast?).getD 0 - 48) = b := by
      rw [List.getLast?_eq_getLast (d :: ds) (by simp)] at hlast ⊢
      simpa using hlast
    have h := Day01.line_adds line (Day01.loop Day01.init pre).sum x d ds hline hf
    rw [← hx] at h
    simp only [Day01.main, List.append_assoc, Day01.loop_append Day01.init pre, h]
    rw [hl, hfirst]

theorem day01_line_adds_first_and_last_witness :
    Day01.main (bytes "1abc2\n" ++ bytes "pqr3stu8vwx" ++ [10])
      = Day01.main (bytes "1abc2\n") + ((10 * 3 + 8 : Nat) : Int) :=
  day01_line_adds_first_and_last (bytes "1abc2\n") (bytes "pqr3stu8vwx") 3 8
    (by decide) (by decide) (by decide) (by decide)

/-- C4 (the code departs from it): on the input "1\na\n" the total is 22,
while the two lines taken alone give 11 and 0, and the reordered input
"a\n1\n" gives 11. On the example of the header comment the total is 142. -/
theorem day01_total_depends_on_line_order :
    Day01.main (bytes "1\na\n") = 22
      ∧ Day01.main (bytes "1\n") + Day01.main (bytes "a\n") = 11
      ∧ Day01.main (bytes "a\n1\n") = 11
      ∧ Day01.main (bytes "1abc2\npqr3stu8vwx\na1b2c3d4e5f\ntreb7uchet\n") = 142 := by
  decide

/-- C5 (the code departs from it): in the input "1\na\n" the second line has
no digit, the first slot still holds the character 1 when that line starts,
and the line adds 11 to the sum. -/
theorem day01_line_without_digit_adds_stale_digit :
    (bytes "a").filter isdigit = []
      ∧ (Day01.loop Day01.init (bytes "1\n")).ns = [49, 0, 0]
      ∧ Day01.main (bytes "1\n" ++ bytes "a" ++ [10]) = Day01.main (bytes "1\n") + 11 := by
  decide

/-- C6 (the code departs from it): the input "1abc2\ntreb7uchet" does not end in
a newline; its total is 12, the same as for "1abc2\n" alone, while with the
newline appended the total is 89. Likewise "1" gives 0 and "1\n" gives 11. -/
theorem day01_unterminated_line_is_dropped :
    (bytes "1abc2\ntreb7uchet").getLast? ≠ some 10
      ∧ Day01.main (bytes "1abc2\ntreb7uchet") = 12
      ∧ Day01.main (bytes "1abc2\n") = 12
      ∧ Day01.main (bytes "1abc2\ntreb7uchet" ++ [10]) = 89
      ∧ Day01.main (bytes "1") = 0 ∧ Day01.main (bytes "1" ++ [10]) = 11 := by
  decide

/-- C9: a newline-terminated line with exactly one decimal digit converts the
buffer holding that digit twice, and adds eleven times the digit. -/
theorem day01_single_digit_line (pre line : List Nat) (c : Nat)
    (hpre : pre = [] ∨ pre.getLast? = some 10) (hline : 10 ∉ line)
    (hone : line.filter isdigit = [c]) :
    Day01.duplicateFirst (Day01.loop Day01.init (pre ++ line)).ns = [c, c, 0]
      ∧ Day01.main (pre ++ line ++ [10]) = Day01.main pre + ((11 * (c - 48) : Nat) : Int) := by
  obtain ⟨x, hx⟩ := Day01.line_start pre hpre
  constructor
  · rw [Day01.loop_append, hx, Day01.loop_line _ _ _ hline, hone]
    simp [Day01.duplicateFirst]
  · have h := Day01.line_adds line (Day01.loop Day01.init pre).sum x c [] hline hone
    rw [← hx] at h
    simp only [Day01.main, List.append_assoc, Day01.loop_append Day01.init pre, h]
    simp only [List.getLast?_singleton, Option.getD_some]
    congr 1
    push_cast
    ring

theorem day01_single_digit_line_witness :
    Day01.duplicateFirst (Day01.loop Day01.init (bytes "1abc2\n" ++ bytes "treb7uchet")).ns
        = [55, 55, 0]
      ∧ Day01.main (bytes "1abc2\n" ++ bytes "treb7uchet" ++ [10])
        = Day01.main (bytes "1abc2\n") + ((11 * (55 - 48) : Nat) : Int) :=
  day01_single_digit_line (bytes "1abc2\n") (bytes "treb7uchet") 55
    (by decide) (by decide) (by decide)

/-- C10: on the empty input both programs finish with total 0; neither loop
runs an iteration. -/
theorem empty_input_totals :
    Day01.loop Day01.init [] = Day01.init ∧ Day01.main [] = 0
      ∧ Day02.getlines [] = [] ∧ ∀ junk, Day02.main junk [] = some 0 := by
  refine ⟨rfl, rfl, rfl, fun _ => rfl⟩

/-! ## Day 2: lemmas -/

namespace Day02

theorem isdigit_facts (a : Nat) (h : isdigit a = true) :
    isspace a = false ∧ a ≠ 45 ∧ a ≠ 43 ∧ a ≠ 10 ∧ a ≠ 0 ∧ a ≠ 44 ∧ a ≠ 32 ∧ a ≠ 13 ∧ a ≠ 59
      ∧ a ≠ 114 ∧ a ≠ 98 ∧ a ≠ 103 := by
  simp only [isdigit, Bool.and_eq_true, decide_eq_true_eq] at h
  refine ⟨?_, ?_⟩
  · simp only [isspace, Bool.or_eq_false_iff, Bool.and_eq_false_imp, decide_eq_true_eq,
      decide_eq_false_iff_not, beq_eq_false_iff_ne]
    omega
  · omega

theorem takeWhile_digits (ds rest : List Nat) (hds : ∀ d ∈ ds, isdigit d = true)
    (hrest : ∀ c, rest.head? = some c → isdigit c = false) :
    (ds ++ rest).takeWhile isdigit = ds := by
  induction ds with
  | nil =>
    cases rest with
    | nil => rfl
    | cons c r => simp [List.takeWhile, hrest c rfl]
  | cons d ds ih =>
    have hd : isdigit d = true := hds d (by simp)
    simp [List.takeWhile, hd, ih (fun x hx => hds x (by simp [hx]))]

theorem isNumeral_iff (ds : List Nat) :
    isNumeral ds = true ↔ ds ≠ [] ∧ ∀ d ∈ ds, isdigit d = true := by
  cases ds <;> simp [isNumeral]

theorem dropWhile_head (f : Nat → Bool) (l : List Nat)
    (h : ∀ c, l.head? = some c → f c = false) : l.dropWhile f = l := by
  cases l with
  | nil => rfl
  | cons c r => simp [List.dropWhile, h c rfl]

/-- Function `strtol` at the first digit of a decimal number that is followed by
something else than a digit. -/
theorem strtol_numeral (ds rest : List Nat) (hnum : isNumeral ds = true)
    (hrest : ∀ c, rest.head? = some c → isdigit c = false) :
    strtol (ds ++ rest) = (clampLong (digitsValue ds : Int), ds.length) := by
  obtain ⟨hne, hds⟩ := (isNumeral_iff ds).mp hnum
  obtain ⟨a, ds1, rfl⟩ : ∃ a ds1, ds = a :: ds1 := by
    cases ds with
    | nil => exact absurd rfl hne
    | cons a ds1 => exact ⟨a, ds1, rfl⟩
  have ha := isdigit_facts a (hds a (by simp))
  have htw := takeWhile_digits (a :: ds1) rest hds hrest
  have hhead : (a :: ds1 ++ rest).head? = some a := rfl
  have hdw : (a :: ds1 ++ rest).dropWhile isspace = a :: ds1 ++ rest :=
    dropWhile_head isspace _ (fun c hc => by
      rw [hhead] at hc
      cases hc
      exact ha.1)
  have hplus : ((some a == some 43) : Bool) = false := by simp [ha.2.2.1]
  have hneg : ((some a == some 45) : Bool) = false := by simp [ha.2.1]
  simp only [strtol, hdw, hhead, hplus, hneg, Bool.or_self, Bool.false_eq_true, if_false, htw]
  simp

/-- Function `strtol` at the space before a decimal number. -/
theorem strtol_space_numeral (ds rest : List Nat) (hnum : isNumeral ds = true)
    (hrest : ∀ c, rest.head? = some c → isdigit c = false) :
    strtol (32 :: (ds ++ rest)) = (clampLong (digitsValue ds : Int), ds.length + 1) := by
  obtain ⟨hne, hds⟩ := (isNumeral_iff ds).mp hnum
  obtain ⟨a, ds1, rfl⟩ : ∃ a ds1, ds = a :: ds1 := by
    cases ds with
    | nil => exact absurd rfl hne
    | cons a ds1 => exact ⟨a, ds1, rfl⟩
  have ha := isdigit_facts a (hds a (by simp))
  have htw := takeWhile_digits (a :: ds1) rest hds hrest
  have hhead : (a :: ds1 ++ rest).head? = some a := rfl
  have hdw0 : (a :: ds1 ++ rest).dropWhile isspace = a :: ds1 ++ rest :=
    dropWhile_head isspace _ (fun c hc => by
      rw [hhead] at hc
      cases hc
      exact ha.1)
  have hdw : (32 :: (a :: ds1 ++ rest)).dropWhile isspace = a :: ds1 ++ rest := by
    rw [List.dropWhile_cons_of_pos (by decide), hdw0]
  have hplus : ((some a == some 43) : Bool) = false := by simp [ha.2.2.1]
  have hneg : ((some a == some 45) : Bool) = false := by simp [ha.2.1]
  simp only [strtol, hdw, hhead, hplus, hneg, Bool.or_self, Bool.false_eq_true, if_false, htw]
  simp
  omega

/-! ### The loop -/

theorem scan_loop_zero (junk : Int) (line : List Nat) (s : Scan) :
    loop junk line 0 s = .running s := rfl

theorem scan_loop_succ (junk : Int) (line : List Nat) (n : Nat) (s s1 : Scan)
    (h : body junk line s = .running s1) :
    loop junk line (n + 1) s = loop junk line n s1 := by
  simp [loop, h]

theorem scan_loop_stop (junk : Int) (line : List Nat) (n : Nat) (s : Scan) (o : Outcome)
    (h : body junk line s = o) (ho : ∀ s1, o ≠ .running s1) :
    loop junk line (n + 1) s = o := by
  cases o with
  | running s1 => exact absurd rfl (ho s1)
  | ret v st => simp [loop, h]
  | fault => simp [loop, h]

/-- Running `m` passes and then `n` more. -/
theorem scan_loop_add (junk : Int) (line : List Nat) (m n : Nat) (s s1 : Scan)
    (h : loop junk line m s = .running s1) :
    loop junk line (m + n) s = loop junk line n s1 := by
  induction m generalizing s with
  | zero =>
    simp only [loop, Outcome.running.injEq] at h
    subst h
    simp
  | succ m ih =>
    cases hb : body junk line s with
    | running s2 =>
      rw [scan_loop_succ junk line m s s2 hb] at h
      rw [show m + 1 + n = (m + n) + 1 by omega, scan_loop_succ junk line (m + n) s s2 hb]
      exact ih s2 h
    | ret v st => simp [loop, hb] at h
    | fault => simp [loop, hb] at h

/-- A finished run is not changed by more fuel. -/
theorem scan_loop_mono (junk : Int) (line : List Nat) (m n : Nat) (s : Scan) (o : Outcome)
    (h : loop junk line m s = o) (ho : ∀ s1, o ≠ .running s1) (hmn : m ≤ n) :
    loop junk line n s = o := by
  induction m generalizing s n with
  | zero => exact absurd h.symm (ho s)
  | succ m ih =>
    obtain ⟨n1, rfl⟩ : ∃ n1, n = n1 + 1 := ⟨n - 1, by omega⟩
    cases hb : body junk line s with
    | running s2 =>
      rw [scan_loop_succ junk line m s s2 hb] at h
      rw [scan_loop_succ junk line n1 s s2 hb]
      exact ih n1 s2 h (by omega)
    | ret v st =>
      have h1 : loop junk line (m + 1) s = .ret v st := by simp [loop, hb]
      have h2 : loop junk line (n1 + 1) s = .ret v st := by simp [loop, hb]
      rw [h2, ← h, h1]
    | fault =>
      have h1 : loop junk line (m + 1) s = .fault := by simp [loop, hb]
      have h2 : loop junk line (n1 + 1) s = .fault := by simp [loop, hb]
      rw [h2, ← h, h1]

/-- A pass that goes on moves the cursor forward, from inside the buffer. -/
theorem body_advances (junk : Int) (line : List Nat) (s s1 : Scan)
    (h : body junk line s = .running s1) :
    s.cursor < s1.cursor ∧ s.cursor ≤ line.length := by
  unfold body at h
  split at h
  · exact absurd h (by simp)
  · rename_i c rest hdrop
    have hlt : s.cursor ≤ line.length := by
      by_contra hc
      have : (line ++ [0]).drop s.cursor = [] := by
        apply List.drop_eq_nil_of_le
        simp
        omega
      rw [this] at hdrop
      exact absurd hdrop (by simp)
    refine ⟨?_, hlt⟩
    unfold dispatch at h
    dsimp only at h
    split_ifs at h <;> simp only [Outcome.running.injEq, reduceCtorEq] at h <;> subst h <;>
      simp only <;> omega

/-- The cursor after `k` passes is at least `k` characters further. -/
theorem scan_loop_cursor (junk : Int) (line : List Nat) (k : Nat) (s s1 : Scan)
    (h : loop junk line k s = .running s1) : s.cursor + k ≤ s1.cursor := by
  induction k generalizing s with
  | zero =>
    simp only [loop, Outcome.running.injEq] at h
    subst h
    simp
  | succ k ih =>
    cases hb : body junk line s with
    | running s2 =>
      rw [scan_loop_succ junk line k s s2 hb] at h
      have := ih s2 h
      have := (body_advances junk line s s2 hb).1
      omega
    | ret v st => simp [loop, hb] at h
    | fault => simp [loop, hb] at h

/-- With enough fuel the loop is left: it returns or faults. -/
theorem scan_loop_finishes (junk : Int) (line : List Nat) (n : Nat) (s : Scan)
    (hn : line.length + 2 ≤ s.cursor + n) (hpos : 0 < n) :
    ∀ s1, loop junk line n s ≠ .running s1 := by
  induction n generalizing s with
  | zero => omega
  | succ n ih =>
    intro s1 h
    cases hb : body junk line s with
    | running s2 =>
      rw [scan_loop_succ junk line n s s2 hb] at h
      obtain ⟨h1, h2⟩ := body_advances junk line s s2 hb
      by_cases hz : n = 0
      · omega
      · exact ih s2 (by omega) (by omega) s1 h
    | ret v st => simp [loop, hb] at h
    | fault => simp [loop, hb] at h

/-- A run that finishes after some number of passes is the run of the function. -/
theorem scan_loop_result (junk : Int) (line : List Nat) (k : Nat) (s : Scan) (o : Outcome)
    (h : loop junk line k s = o) (ho : ∀ s1, o ≠ .running s1) :
    loop junk line (line.length + 2) s = o := by
  rcases Nat.le_total k (line.length + 2) with hk | hk
  · exact scan_loop_mono junk line k _ s o h ho hk
  · have hfin := scan_loop_finishes junk line (line.length + 2) s (by omega) (by omega)
    have := scan_loop_mono junk line (line.length + 2) k s _ rfl hfin hk
    rw [← h, this]

/-- The function always comes to an end: it returns or it faults, it never
needs more than the `line.length + 2` passes it is given. -/
theorem parse_and_check_game_returns (junk : Int) (line : List Nat) (game : game_t)
    (cursor : Nat) : ∀ s, parse_and_check_game junk line game cursor ≠ .running s := by
  intro s h
  unfold parse_and_check_game at h
  cases he : enter line game cursor with
  | running s0 =>
    rw [he] at h
    exact scan_loop_finishes junk line (line.length + 2) s0 (by omega) (by omega) s h
  | ret v st =>
    unfold enter at he
    split at he <;> simp at he
  | fault =>
    rw [he] at h
    simp at h

/-! ### Single passes on a known text -/

theorem body_at (junk : Int) (line pre rest : List Nat) (c : Nat) (s : Scan)
    (hline : line = pre ++ c :: rest) (hcur : s.cursor = pre.length) :
    body junk line s = dispatch junk s c (rest ++ [0]) := by
  subst hline
  unfold body
  rw [hcur]
  simp

theorem body_at_end (junk : Int) (line : List Nat) (s : Scan) (hcur : s.cursor = line.length) :
    body junk line s = dispatch junk s 0 [] := by
  unfold body
  rw [hcur]
  simp

theorem addCubes_number (g : game_t) (c : Color) (n : Int) :
    (addCubes g c n).number = g.number := by
  cases c <;> rfl

theorem tally_number (ds : List Draw) (g : game_t) : (tally g ds).number = g.number := by
  induction ds generalizing g with
  | nil => rfl
  | cons d ds ih =>
    show (tally (addCubes g d.color _) ds).number = g.number
    rw [ih, addCubes_number]

theorem tally_cons (g : game_t) (d : Draw) (ds : List Draw) :
    tally g (d :: ds) = tally (addCubes g d.color (clampLong (d.value : Int))) ds := rfl

/-- The pass at the first letter of a color word. -/
theorem body_color (junk : Int) (line pre rest : List Nat) (col : Color) (g : game_t) (v : Int)
    (hline : line = pre ++ col.spelling ++ rest) :
    body junk line { game := g, cursor := pre.length, number := some v }
      = .running { game := addCubes g col v, cursor := pre.length + col.spelling.length,
                   number := some v } := by
  cases col
  · rw [body_at junk line pre ([101, 100] ++ rest) 114 _ (by simp [hline, Color.spelling]) rfl]
    simp [dispatch, addCubes, pending, Color.spelling]
  · rw [body_at junk line pre ([114, 101, 101, 110] ++ rest) 103 _
      (by simp [hline, Color.spelling]) rfl]
    simp [dispatch, addCubes, pending, Color.spelling]
  · rw [body_at junk line pre ([108, 117, 101] ++ rest) 98 _ (by simp [hline, Color.spelling]) rfl]
    simp [dispatch, addCubes, pending, Color.spelling]

/-- The pass at the first digit of a count that is followed by a space. -/
theorem body_count (junk : Int) (line pre rest ds : List Nat) (g : game_t) (num : Option Int)
    (hline : line = pre ++ ds ++ 32 :: rest) (hnum : isNumeral ds = true) :
    body junk line { game := g, cursor := pre.length, number := num }
      = if clampLong (digitsValue ds : Int) = 0 then
          .ret 0 { game := g, cursor := pre.length + ds.length, number := some 0 }
        else
          .running { game := g, cursor := pre.length + ds.length + 1,
                     number := some (clampLong (digitsValue ds : Int)) } := by
  obtain ⟨hne, hds⟩ := (isNumeral_iff ds).mp hnum
  obtain ⟨a, ds1, rfl⟩ : ∃ a ds1, ds = a :: ds1 := by
    cases ds with
    | nil => exact absurd rfl hne
    | cons a ds1 => exact ⟨a, ds1, rfl⟩
  have ha := isdigit_facts a (hds a (by simp))
  obtain ⟨-, -, -, h10, h0, h44, h32, h13, h59, h114, h98, h103⟩ := ha
  rw [body_at junk line pre (ds1 ++ 32 :: rest) a _ (by simp [hline]) rfl]
  have hst : strtol (a :: (ds1 ++ 32 :: rest ++ [0]))
      = (clampLong (digitsValue (a :: ds1) : Int), (a :: ds1).length) := by
    have := strtol_numeral (a :: ds1) (32 :: rest ++ [0]) hnum (by
      intro c hc
      simp at hc
      subst hc
      decide)
    simpa using this
  unfold dispatch
  simp only [h10, h0, h44, h32, h13, h59, h114, h98, h103, or_self, if_false, hst]
  split <;> simp_all

/-! ### Integer ranges -/

theorem clampLong_of_range (x : Int) (h1 : -9223372036854775808 ≤ x)
    (h2 : x ≤ 9223372036854775807) : clampLong x = x := by
  unfold clampLong LONG_MAX LONG_MIN
  omega

theorem clampLong_nat_eq_zero (n : Nat) : clampLong (n : Int) = 0 ↔ n = 0 := by
  unfold clampLong LONG_MAX LONG_MIN
  omega

theorem wrapLong_of_range (x : Int) (h1 : -9223372036854775808 ≤ x)
    (h2 : x ≤ 9223372036854775807) : wrapLong x = x := by
  unfold wrapLong
  omega

theorem wrapInt_of_range (x : Int) (h1 : -2147483648 ≤ x) (h2 : x ≤ 2147483647) :
    wrapInt x = x := by
  unfold wrapInt
  omega

theorem wrapInt_wrapInt_add (a b : Int) : wrapInt (wrapInt a + b) = wrapInt (a + b) := by
  unfold wrapInt
  omega

/-! ### Scanning pairs and groups -/

/-- A pair whose count is not 0 takes two passes: the count, then the color. -/
theorem scan_draw (junk : Int) (line pre rest : List Nat) (d : Draw) (s : Scan)
    (hline : line = pre ++ renderDraw d ++ rest) (hcur : s.cursor = pre.length)
    (hnum : isNumeral d.count = true) (hpos : 0 < d.value) :
    ∃ s1, loop junk line 2 s = .running s1
      ∧ s1.game = addCubes s.game d.color (clampLong (d.value : Int))
      ∧ s1.cursor = pre.length + (renderDraw d).length
      ∧ s1.number = some (clampLong (d.value : Int)) := by
  obtain ⟨g, cur, num⟩ := s
  simp only at hcur
  subst hcur
  have hv : clampLong (digitsValue d.count : Int) ≠ 0 := by
    rw [Ne, clampLong_nat_eq_zero]
    exact Nat.pos_iff_ne_zero.mp hpos
  have h1 := body_count junk line pre (d.color.spelling ++ rest) d.count g num
    (by simp [hline, renderDraw]) hnum
  rw [if_neg hv] at h1
  have h2 := body_color junk line (pre ++ d.count ++ [32]) rest d.color g
    (clampLong (digitsValue d.count : Int)) (by simp [hline, renderDraw])
  have hc : (pre ++ d.count ++ [32]).length = pre.length + d.count.length + 1 := by
    simp
    omega
  rw [hc] at h2
  refine ⟨{ game := addCubes g d.color (clampLong (digitsValue d.count : Int)),
            cursor := pre.length + d.count.length + 1 + d.color.spelling.length,
            number := some (clampLong (digitsValue d.count : Int)) }, ?_, rfl, ?_, rfl⟩
  · rw [scan_loop_succ junk line 1 _ _ h1, scan_loop_succ junk line 0 _ _ h2]
    rfl
  · simp [renderDraw]
    omega

/-- A pair whose count is 0 makes the function return 0 at once. -/
theorem scan_draw_zero (junk : Int) (line pre rest : List Nat) (d : Draw) (s : Scan)
    (hline : line = pre ++ renderDraw d ++ rest) (hcur : s.cursor = pre.length)
    (hnum : isNumeral d.count = true) (hzero : d.value = 0) :
    loop junk line 1 s
      = .ret 0 { game := s.game, cursor := pre.length + d.count.length, number := some 0 } := by
  obtain ⟨g, cur, num⟩ := s
  simp only at hcur
  subst hcur
  have hv : clampLong (digitsValue d.count : Int) = 0 := by
    rw [clampLong_nat_eq_zero]
    exact hzero
  have h1 := body_count junk line pre (d.color.spelling ++ rest) d.count g num
    (by simp [hline, renderDraw]) hnum
  rw [if_pos hv] at h1
  exact scan_loop_stop junk line 0 _ _ h1 (by simp)

/-- A separator character is skipped in one pass. -/
theorem scan_separator (junk : Int) (line pre rest : List Nat) (c : Nat) (s : Scan)
    (hline : line = pre ++ c :: rest) (hcur : s.cursor = pre.length)
    (hc : c = 44 ∨ c = 32 ∨ c = 13) :
    loop junk line 1 s = .running { s with cursor := s.cursor + 1 } := by
  have hb : body junk line s = .running { s with cursor := s.cursor + 1 } := by
    rw [body_at junk line pre rest c s hline hcur]
    rcases hc with h | h | h <;> subst h <;> simp [dispatch]
  rw [scan_loop_succ junk line 0 _ _ hb]
  rfl

/-- Composition of two runs. -/
theorem scan_loop_trans (junk : Int) (line : List Nat) (m n : Nat) (s s1 : Scan) (o : Outcome)
    (h1 : loop junk line m s = .running s1) (h2 : loop junk line n s1 = o) :
    loop junk line (m + n) s = o := by
  rw [scan_loop_add junk line m n s s1 h1, h2]

/-- Scanning the pairs of a group: with all counts positive the scan arrives
behind the group with the pairs tallied; with a zero count it returns 0. -/
theorem scan_group (junk : Int) (line : List Nat) (ds : List Draw) :
    ∀ (pre rest : List Nat) (s : Scan), line = pre ++ renderGroup ds ++ rest →
      s.cursor = pre.length → (∀ d ∈ ds, isNumeral d.count = true) →
      ((∀ d ∈ ds, 0 < d.value) →
          ∃ k s1, loop junk line k s = .running s1 ∧ s1.game = tally s.game ds
            ∧ s1.cursor = pre.length + (renderGroup ds).length)
        ∧ ((¬ ∀ d ∈ ds, 0 < d.value) →
          ∃ k st, loop junk line k s = .ret 0 st ∧ st.game.number = s.game.number) := by
  induction ds with
  | nil =>
    intro pre rest s _ hcur _
    refine ⟨fun _ => ⟨0, s, rfl, rfl, by simp [renderGroup, hcur]⟩, fun h => ?_⟩
    exact absurd (fun d hd => by simp at hd) h
  | cons d ds ih =>
    intro pre rest s hline hcur hnum
    have hnd : isNumeral d.count = true := hnum d (by simp)
    have hnds : ∀ x ∈ ds, isNumeral x.count = true := fun x hx => hnum x (by simp [hx])
    cases ds with
    | nil =>
      simp only [renderGroup] at hline ⊢
      constructor
      · intro hpos
        obtain ⟨s1, h1, hg, hc, -⟩ :=
          scan_draw junk line pre rest d s hline hcur hnd (hpos d (by simp))
        exact ⟨2, s1, h1, by simpa [tally] using hg, hc⟩
      · intro hz
        have hz0 : d.value = 0 := by
          by_contra hne
          exact hz (fun x hx => by
            simp at hx
            subst hx
            exact Nat.pos_of_ne_zero hne)
        exact ⟨1, _, scan_draw_zero junk line pre rest d s hline hcur hnd hz0, rfl⟩
    | cons e es =>
      have hline1 : line = pre ++ renderDraw d ++ (44 :: 32 :: (renderGroup (e :: es) ++ rest)) := by
        simp [hline, renderGroup]
      by_cases hd0 : d.value = 0
      · refine ⟨fun hpos => ?_, fun _ => ?_⟩
        · have := hpos d (by simp)
          omega
        · exact ⟨1, _, scan_draw_zero junk line pre _ d s hline1 hcur hnd hd0, rfl⟩
      · obtain ⟨s1, h1, hg1, hc1, -⟩ :=
          scan_draw junk line pre _ d s hline1 hcur hnd (Nat.pos_of_ne_zero hd0)
        have h2 := scan_separator junk line (pre ++ renderDraw d)
          (32 :: (renderGroup (e :: es) ++ rest)) 44 s1 (by simp [hline1]) (by simp [hc1])
          (Or.inl rfl)
        have h3 := scan_separator junk line (pre ++ renderDraw d ++ [44])
          (renderGroup (e :: es) ++ rest) 32 { s1 with cursor := s1.cursor + 1 }
          (by simp [hline1]) (by simp [hc1]; omega) (Or.inr (Or.inl rfl))
        have h123 := scan_loop_trans junk line _ _ _ _ _
          (scan_loop_trans junk line _ _ _ _ _ h1 h2) h3
        obtain ⟨ihpos, ihzero⟩ := ih (pre ++ renderDraw d ++ [44, 32]) rest
          { s1 with cursor := s1.cursor + 1 + 1 } (by simp [hline1]) (by simp [hc1]; omega) hnds
        constructor
        · intro hpos
          obtain ⟨k, s2, hk, hg2, hc2⟩ := ihpos (fun x hx => hpos x (by simp [hx]))
          refine ⟨_, s2, scan_loop_trans junk line _ k _ _ _ h123 hk, ?_, ?_⟩
          · simp only [hg2, tally_cons, hg1]
          · rw [hc2]
            simp [renderGroup]
            omega
        · intro hz
          have hz1 : ¬ ∀ x ∈ e :: es, 0 < x.value := by
            intro hall
            apply hz
            intro x hx
            rcases List.mem_cons.mp hx with h | h
            · subst h
              exact Nat.pos_of_ne_zero hd0
            · exact hall x h
          obtain ⟨k, st, hk, hn⟩ := ihzero hz1
          refine ⟨_, st, scan_loop_trans junk line _ k _ _ _ h123 hk, ?_⟩
          rw [hn]
          simp [hg1, addCubes_number]

/-- At the line terminator the function returns the id or 0. -/
theorem scan_terminator (junk : Int) (line pre tail : List Nat) (s : Scan)
    (hline : line = pre ++ tail) (htail : tail = [] ∨ ∃ t, tail = 10 :: t)
    (hcur : s.cursor = pre.length) :
    loop junk line 1 s
      = .ret (if is_game_passed s.game then wrapInt s.game.number else 0) s := by
  apply scan_loop_stop junk line 0 s _ _ (by simp)
  rcases htail with h | ⟨t, h⟩
  · subst h
    rw [body_at_end junk line s (by simp [hline, hcur])]
    simp [dispatch]
  · subst h
    rw [body_at junk line pre t 10 s hline hcur]
    simp [dispatch]

/-- The pass at a semicolon. -/
theorem scan_semicolon (junk : Int) (line pre rest : List Nat) (s : Scan)
    (hline : line = pre ++ 59 :: rest) (hcur : s.cursor = pre.length) :
    body junk line s
      = if is_game_passed s.game then
          .running { s with game := { s.game with red := 0, blue := 0, green := 0 },
                            cursor := s.cursor + 1 }
        else .ret 0 s := by
  rw [body_at junk line pre rest 59 s hline hcur]
  simp [dispatch]

/-- Scanning the groups of a record up to the line terminator. -/
theorem scan_groups (junk : Int) (line : List Nat) (n : Int) (gs : List (List Draw)) :
    ∀ (pre tail : List Nat) (s : Scan), line = pre ++ renderGroups gs ++ tail →
      (tail = [] ∨ ∃ t, tail = 10 :: t) → s.cursor = pre.length →
      s.game = { number := n, blue := 0, red := 0, green := 0 } →
      (∀ g ∈ gs, ∀ d ∈ g, isNumeral d.count = true) →
      ∃ k st, loop junk line k s = .ret (if gs.all (accepted n) then wrapInt n else 0) st
        ∧ st.game.number = n := by
  induction gs with
  | nil =>
    intro pre tail s hline htail hcur hgame _
    have h := scan_terminator junk line pre tail s (by simpa [renderGroups] using hline) htail hcur
    refine ⟨1, s, ?_, by simp [hgame]⟩
    rw [h, hgame]
    simp [is_game_passed]
  | cons g gs ih =>
    intro pre tail s hline htail hcur hgame hnum
    have hng : ∀ d ∈ g, isNumeral d.count = true := hnum g (by simp)
    have hngs : ∀ x ∈ gs, ∀ d ∈ x, isNumeral d.count = true :=
      fun x hx => hnum x (by simp [hx])
    have hallpos : (g.all (fun d => decide (0 < d.value)) = true) ↔ ∀ d ∈ g, 0 < d.value := by
      simp
    cases gs with
    | nil =>
      simp only [renderGroups] at hline
      obtain ⟨hpos, hzero⟩ := scan_group junk line g pre tail s hline hcur hng
      by_cases hp : ∀ d ∈ g, 0 < d.value
      · obtain ⟨k, s1, hk, hg1, hc1⟩ := hpos hp
        have ht := scan_terminator junk line (pre ++ renderGroup g) tail s1
          (by simp [hline]) htail (by simp [hc1])
        refine ⟨k + 1, s1, ?_, by simp [hg1, tally_number, hgame]⟩
        rw [scan_loop_trans junk line k 1 s s1 _ hk ht]
        simp [accepted, hallpos.mpr hp, hg1, hgame, tally_number]
      · obtain ⟨k, st, hk, hn⟩ := hzero hp
        refine ⟨k, st, ?_, by simp [hn, hgame]⟩
        rw [hk]
        have : g.all (fun d => decide (0 < d.value)) = false := by
          rw [← Bool.not_eq_true, hallpos]
          exact hp
        simp [accepted, this]
    | cons h hs =>
      have hline1 : line = pre ++ renderGroup g ++ (59 :: 32 :: (renderGroups (h :: hs) ++ tail)) := by
        simp [hline, renderGroups]
      obtain ⟨hpos, hzero⟩ := scan_group junk line g pre _ s hline1 hcur hng
      by_cases hp : ∀ d ∈ g, 0 < d.value
      · obtain ⟨k, s1, hk, hg1, hc1⟩ := hpos hp
        have hsemi := scan_semicolon junk line (pre ++ renderGroup g)
          (32 :: (renderGroups (h :: hs) ++ tail)) s1 (by simp [hline1]) (by simp [hc1])
        by_cases hpass : is_game_passed s1.game = true
        · rw [if_pos hpass] at hsemi
          have h2 := scan_loop_succ junk line 0 _ _ hsemi
          rw [scan_loop_zero] at h2
          have h3 := scan_separator junk line (pre ++ renderGroup g ++ [59])
            (renderGroups (h :: hs) ++ tail) 32
            { s1 with game := { s1.game with red := 0, blue := 0, green := 0 },
                      cursor := s1.cursor + 1 }
            (by simp [hline1]) (by simp [hc1]; omega) (Or.inr (Or.inl rfl))
          have h123 := scan_loop_trans junk line _ _ _ _ _
            (scan_loop_trans junk line _ _ _ _ _ hk h2) h3
          obtain ⟨k2, st, hk2, hn2⟩ := ih (pre ++ renderGroup g ++ [59, 32]) tail
            { game := { s1.game with red := 0, blue := 0, green := 0 },
              cursor := s1.cursor + 1 + 1, number := s1.number }
            (by simp [hline1]) htail (by simp [hc1]; omega)
            (by simp [hg1, tally_number, hgame]) hngs
          have hfin := scan_loop_trans junk line _ k2 _ _ _ h123 hk2
          refine ⟨_, st, hfin.trans ?_, hn2⟩
          have hacc : accepted n g = true := by
            simp only [accepted, Bool.and_eq_true]
            refine ⟨hallpos.mpr hp, ?_⟩
            rw [← hgame, ← hg1]
            exact hpass
          simp [List.all_cons, hacc]
        · rw [if_neg hpass] at hsemi
          have h2 := scan_loop_stop junk line 0 _ _ hsemi (by simp)
          refine ⟨k + 1, s1, ?_, by simp [hg1, tally_number, hgame]⟩
          rw [scan_loop_trans junk line k 1 s s1 _ hk h2]
          have hacc : accepted n g = false := by
            simp only [accepted, Bool.and_eq_false_imp]
            intro _
            rw [← hgame, ← hg1]
            simpa using hpass
          simp [List.all_cons, hacc]
      · obtain ⟨k, st, hk, hn⟩ := hzero hp
        refine ⟨k, st, ?_, by simp [hn, hgame]⟩
        rw [hk]
        have : g.all (fun d => decide (0 < d.value)) = false := by
          rw [← Bool.not_eq_true, hallpos]
          exact hp
        simp [accepted, this]

/-- The state at the first loop head for the text of a record. -/
theorem enter_record (r : Record) (tail : List Nat) (hid : isNumeral r.id = true) :
    enter (renderRecord r ++ tail) { number := 0, blue := 0, red := 0, green := 0 } 0
      = .running { game := { number := clampLong (r.idValue : Int), blue := 0, red := 0, green := 0 },
                   cursor := r.id.length + 6, number := none } := by
  have hdrop : (renderRecord r ++ tail ++ [0]).drop (0 + 4)
      = 32 :: (r.id ++ (58 :: 32 :: (renderGroups r.groups ++ tail ++ [0]))) := by
    simp [renderRecord]
  have hst := strtol_space_numeral r.id (58 :: 32 :: (renderGroups r.groups ++ tail ++ [0])) hid
    (by
      intro c hc
      simp at hc
      subst hc
      decide)
  unfold enter
  rw [hdrop]
  simp only [hst, Record.idValue]
  congr 2
  omega

/-- The call on the text of a record, counts of 0 allowed: the value returned
and the id left in `game->number`. -/
theorem parse_record (junk : Int) (r : Record) (tail : List Nat)
    (hid : isNumeral r.id = true)
    (hnum : ∀ g ∈ r.groups, ∀ d ∈ g, isNumeral d.count = true)
    (htail : tail = [] ∨ ∃ t, tail = 10 :: t) :
    ∃ st, parse_and_check_game junk (renderRecord r ++ tail)
            { number := 0, blue := 0, red := 0, green := 0 } 0
          = .ret (if r.groups.all (accepted (clampLong (r.idValue : Int)))
                  then wrapInt (clampLong (r.idValue : Int)) else 0) st
        ∧ st.game.number = clampLong (r.idValue : Int) := by
  have hline : renderRecord r ++ tail
      = ([71, 97, 109, 101, 32] ++ r.id ++ [58]) ++ 32 :: (renderGroups r.groups ++ tail) := by
    simp [renderRecord]
  have h1 := scan_separator junk (renderRecord r ++ tail) ([71, 97, 109, 101, 32] ++ r.id ++ [58])
    (renderGroups r.groups ++ tail) 32
    { game := { number := clampLong (r.idValue : Int), blue := 0, red := 0, green := 0 },
      cursor := r.id.length + 6, number := none } hline (by simp) (Or.inr (Or.inl rfl))
  obtain ⟨k, st, hk, hn⟩ := scan_groups junk (renderRecord r ++ tail) (clampLong (r.idValue : Int))
    r.groups ([71, 97, 109, 101, 32] ++ r.id ++ [58, 32]) tail
    { game := { number := clampLong (r.idValue : Int), blue := 0, red := 0, green := 0 },
      cursor := r.id.length + 6 + 1, number := none }
    (by simp [renderRecord]) htail (by simp) rfl hnum
  have hrun := scan_loop_trans junk _ _ _ _ _ _ h1 hk
  refine ⟨st, ?_, hn⟩
  unfold parse_and_check_game
  rw [enter_record r tail hid]
  exact scan_loop_result junk _ _ _ _ hrun (by simp)

/-! ### Counters of a group within range -/

theorem addCubes_cubes (g : game_t) (c e : Color) (n : Int) :
    (addCubes g c n).cubes e = if c = e then wrapLong (g.cubes e + n) else g.cubes e := by
  cases c <;> cases e <;> simp [addCubes, game_t.cubes]

theorem groupTotal_cons (c : Color) (d : Draw) (ds : List Draw) :
    groupTotal c (d :: ds) = (if d.color = c then d.value else 0) + groupTotal c ds := by
  unfold groupTotal
  by_cases h : d.color = c <;> simp [List.filter_cons, h]

/-- Without overflow the counter of a color grows by the total of the group. -/
theorem tally_cubes (c : Color) (ds : List Draw) (g : game_t) (h0 : 0 ≤ g.cubes c)
    (hb : g.cubes c + (groupTotal c ds : Int) ≤ 9223372036854775807) :
    (tally g ds).cubes c = g.cubes c + (groupTotal c ds : Int) := by
  induction ds generalizing g with
  | nil => simp [tally, groupTotal]
  | cons d ds ih =>
    rw [groupTotal_cons] at hb ⊢
    rw [tally_cons]
    push_cast at hb ⊢
    by_cases hc : d.color = c
    · simp only [hc, if_true] at hb ⊢
      have hcl : clampLong (d.value : Int) = (d.value : Int) :=
        clampLong_of_range _ (by omega) (by omega)
      have hw : wrapLong (g.cubes c + (d.value : Int)) = g.cubes c + (d.value : Int) :=
        wrapLong_of_range _ (by omega) (by omega)
      have hnew : (addCubes g c (clampLong (d.value : Int))).cubes c
          = g.cubes c + (d.value : Int) := by
        rw [addCubes_cubes, if_pos rfl, hcl, hw]
      rw [ih _ (by rw [hnew]; omega) (by rw [hnew]; omega), hnew]
      ring
    · simp only [hc, if_false] at hb ⊢
      have hnew : (addCubes g d.color (clampLong (d.value : Int))).cubes c = g.cubes c := by
        rw [addCubes_cubes, if_neg hc]
      rw [ih _ (by rw [hnew]; exact h0) (by rw [hnew]; omega), hnew]
      simp

theorem is_game_passed_cubes (g : game_t) :
    is_game_passed g = (decide (g.cubes .red ≤ 12) && decide (g.cubes .green ≤ 13)
      && decide (g.cubes .blue ≤ 14)) := rfl

/-- For a group with positive counts and totals in range the scan accepts the
group exactly when the group satisfies the thresholds. -/
theorem accepted_eq_groupOk (n : Int) (g : List Draw) (hr : groupInRange g = true)
    (hp : g.all (fun d => decide (0 < d.value)) = true) : accepted n g = groupOk g := by
  simp only [groupInRange, Bool.and_eq_true, decide_eq_true_eq] at hr
  obtain ⟨⟨hred, hgreen⟩, hblue⟩ := hr
  have h1 := tally_cubes .red g { number := n, blue := 0, red := 0, green := 0 }
    (by simp [game_t.cubes]) (by simp [game_t.cubes]; omega)
  have h2 := tally_cubes .green g { number := n, blue := 0, red := 0, green := 0 }
    (by simp [game_t.cubes]) (by simp [game_t.cubes]; omega)
  have h3 := tally_cubes .blue g { number := n, blue := 0, red := 0, green := 0 }
    (by simp [game_t.cubes]) (by simp [game_t.cubes]; omega)
  simp only [game_t.cubes, zero_add] at h1 h2 h3
  simp only [accepted, hp, Bool.true_and, is_game_passed, groupOk, h1, h2, h3]
  norm_cast

theorem all_congr_mem (l : List (List Draw)) (f g : List Draw → Bool)
    (h : ∀ x ∈ l, f x = g x) : l.all f = l.all g := by
  induction l with
  | nil => rfl
  | cons a l ih =>
    simp only [List.all_cons, h a (by simp), ih (fun x hx => h x (by simp [hx]))]

theorem numeric_parts (r : Record) (h : r.numeric = true) :
    isNumeral r.id = true ∧ ∀ g ∈ r.groups, ∀ d ∈ g, isNumeral d.count = true := by
  simpa [Record.numeric] using h

/-- The call on the text of a well-formed record: the value returned and the
id left in `game->number`. -/
theorem parse_wellformed (junk : Int) (r : Record) (tail : List Nat)
    (hwf : r.wellFormed = true) (htail : tail = [] ∨ ∃ t, tail = 10 :: t) :
    ∃ st, parse_and_check_game junk (renderRecord r ++ tail)
            { number := 0, blue := 0, red := 0, green := 0 } 0
          = .ret (if r.passes then (r.idValue : Int) else 0) st
        ∧ st.game.number = (r.idValue : Int) := by
  simp only [Record.wellFormed, Bool.and_eq_true, decide_eq_true_eq, List.all_eq_true] at hwf
  obtain ⟨⟨hnumeric, hidr⟩, hgroups⟩ := hwf
  obtain ⟨hid, hnum⟩ := numeric_parts r hnumeric
  obtain ⟨st, hst, hn⟩ := parse_record junk r tail hid hnum htail
  have hcl : clampLong (r.idValue : Int) = (r.idValue : Int) :=
    clampLong_of_range _ (by omega) (by omega)
  have hw : wrapInt (r.idValue : Int) = (r.idValue : Int) :=
    wrapInt_of_range _ (by omega) (by omega)
  have hall : r.groups.all (accepted (r.idValue : Int)) = r.passes := by
    unfold Record.passes
    apply all_congr_mem
    intro g hg
    obtain ⟨h1, h2⟩ := hgroups g hg
    exact accepted_eq_groupOk _ g h1 (by simpa using h2)
  refine ⟨st, ?_, by rw [hn, hcl]⟩
  rw [hst, hcl, hw, hall]

/-! ### The lines of a file of records -/

theorem getlines_cons (c : Nat) (cs : List Nat) (hc : c ≠ 10) :
    getlines (c :: cs)
      = match getlines cs with
        | [] => [[c]]
        | l :: ls => (c :: l) :: ls := by
  simp [getlines, hc]

theorem getlines_line (l rest : List Nat) (h : 10 ∉ l) :
    getlines (l ++ 10 :: rest) = (l ++ [10]) :: getlines rest := by
  induction l with
  | nil => simp [getlines]
  | cons c l ih =>
    have hc : c ≠ 10 := fun e => h (by simp [e])
    have hl : 10 ∉ l := fun e => h (by simp [e])
    rw [List.cons_append, getlines_cons c _ hc, ih hl]
    rfl

theorem getlines_last (l : List Nat) (h : 10 ∉ l) (hne : l ≠ []) : getlines l = [l] := by
  induction l with
  | nil => exact absurd rfl hne
  | cons c l ih =>
    have hc : c ≠ 10 := fun e => h (by simp [e])
    have hl : 10 ∉ l := fun e => h (by simp [e])
    cases l with
    | nil => simp [getlines, hc]
    | cons d l =>
      rw [getlines_cons c _ hc, ih hl (by simp)]

theorem no_newline_numeral (ds : List Nat) (h : isNumeral ds = true) : 10 ∉ ds := by
  intro hm
  have := ((isNumeral_iff ds).mp h).2 10 hm
  simp [isdigit] at this

theorem no_newline_spelling (c : Color) : 10 ∉ c.spelling := by
  cases c <;> decide

theorem no_newline_draw (d : Draw) (h : isNumeral d.count = true) : 10 ∉ renderDraw d := by
  simp only [renderDraw, List.mem_append, not_or]
  exact ⟨⟨no_newline_numeral _ h, by decide⟩, no_newline_spelling _⟩

theorem no_newline_group (ds : List Draw) (h : ∀ d ∈ ds, isNumeral d.count = true) :
    10 ∉ renderGroup ds := by
  induction ds with
  | nil => simp [renderGroup]
  | cons d ds ih =>
    have hd := no_newline_draw d (h d (by simp))
    have hds := ih (fun x hx => h x (by simp [hx]))
    cases ds with
    | nil => simpa [renderGroup] using hd
    | cons e es =>
      simp only [renderGroup, List.mem_append, not_or]
      exact ⟨⟨hd, by decide⟩, hds⟩

theorem no_newline_groups (gs : List (List Draw))
    (h : ∀ g ∈ gs, ∀ d ∈ g, isNumeral d.count = true) : 10 ∉ renderGroups gs := by
  induction gs with
  | nil => simp [renderGroups]
  | cons g gs ih =>
    have hg := no_newline_group g (h g (by simp))
    have hgs := ih (fun x hx => h x (by simp [hx]))
    cases gs with
    | nil => simpa [renderGroups] using hg
    | cons e es =>
      simp only [renderGroups, List.mem_append, not_or]
      exact ⟨⟨hg, by decide⟩, hgs⟩

theorem no_newline_record (r : Record) (h : r.numeric = true) : 10 ∉ renderRecord r := by
  obtain ⟨hid, hnum⟩ := numeric_parts r h
  simp only [renderRecord, List.mem_append, not_or]
  exact ⟨⟨⟨by decide, no_newline_numeral _ hid⟩, by decide⟩, no_newline_groups _ hnum⟩

theorem wellFormed_numeric (r : Record) (h : r.wellFormed = true) : r.numeric = true := by
  simp only [Record.wellFormed, Bool.and_eq_true] at h
  exact h.1.1

theorem wrapInt_range (x : Int) : -2147483648 ≤ wrapInt x ∧ wrapInt x ≤ 2147483647 := by
  unfold wrapInt
  omega

/-- One turn of the loop of `main` on the line of a well-formed record. -/
theorem main_loop_record (junk : Nat → Int) (i : Nat) (sum : Int) (r : Record)
    (tail : List Nat) (ls : List (List Nat)) (hwf : r.wellFormed = true)
    (htail : tail = [] ∨ ∃ t, tail = 10 :: t)
    (hsum : -2147483648 ≤ sum ∧ sum ≤ 2147483647) :
    main_loop junk i sum ((renderRecord r ++ tail) :: ls)
      = main_loop junk (i + 1) (wrapInt (sum + (r.score : Int))) ls := by
  obtain ⟨st, hst, hn⟩ := parse_wellformed (junk i) r tail hwf htail
  simp only [main_loop, hst, hn]
  congr 1
  unfold Record.score
  by_cases hp : r.passes = true
  · simp only [hp, if_true]
    by_cases hz : r.idValue = 0
    · simp [hz, wrapInt_of_range sum hsum.1 hsum.2]
    · have : (0 : Int) < (r.idValue : Int) := by omega
      simp [this]
  · simp only [hp, if_false]
    simp [wrapInt_of_range sum hsum.1 hsum.2]

theorem renderInput_cons (r : Record) (rs : List Record) (closed : Bool)
    (h : rs ≠ [] ∨ closed = true) :
    renderInput (r :: rs) closed = renderRecord r ++ 10 :: renderInput rs closed := by
  cases rs with
  | nil =>
    cases closed with
    | false => simp at h
    | true => simp [renderInput]
  | cons e es => simp [renderInput]

/-- The loop of `main` over a file of well-formed records: the total is the
sum of the scores, converted to `int`. -/
theorem main_loop_records (junk : Nat → Int) (closed : Bool) (rs : List Record) :
    ∀ (i : Nat) (sum : Int), (∀ r ∈ rs, r.wellFormed = true) →
      (-2147483648 ≤ sum ∧ sum ≤ 2147483647) →
      main_loop junk i sum (getlines (renderInput rs closed))
        = some (wrapInt (sum + (((rs.map Record.score).sum : Nat) : Int))) := by
  induction rs with
  | nil =>
    intro i sum _ hsum
    simp [renderInput, getlines, main_loop, wrapInt_of_range sum hsum.1 hsum.2]
  | cons r rs ih =>
    intro i sum hwf hsum
    have hr := hwf r (by simp)
    have hrs : ∀ x ∈ rs, x.wellFormed = true := fun x hx => hwf x (by simp [hx])
    have hnl := no_newline_record r (wellFormed_numeric r hr)
    by_cases hlast : rs ≠ [] ∨ closed = true
    · rw [renderInput_cons r rs closed hlast, getlines_line _ _ hnl,
        main_loop_record junk i sum r [10] _ hr (Or.inr ⟨[], rfl⟩) hsum,
        ih (i + 1) _ hrs (wrapInt_range _)]
      simp only [List.map_cons, List.sum_cons, Nat.cast_add]
      rw [wrapInt_wrapInt_add, add_assoc]
    · simp only [not_or, not_not, Bool.not_eq_true] at hlast
      obtain ⟨h1, h2⟩ := hlast
      subst h1
      subst h2
      have hne : renderRecord r ≠ [] := by simp [renderRecord]
      have hstep := main_loop_record junk i sum r [] [] hr (Or.inl rfl) hsum
      simp only [List.append_nil] at hstep
      simp only [renderInput, getlines_last _ hnl hne, hstep, main_loop]
      simp

/-! ### Nothing behind a semicolon is read before the cursor passes it -/

theorem enter_cursor (line : List Nat) (g : game_t) (cursor : Nat) (s0 : Scan)
    (h : enter line g cursor = .running s0) : cursor + 5 ≤ s0.cursor := by
  unfold enter at h
  split at h
  · exact absurd h (by simp)
  · simp only [Outcome.running.injEq] at h
    subst h
    simp only
    omega

end Day02

/-! ## Day 2: the claims -/

/-- C2: on the text of a well-formed record, closed by a newline or by
the end of the string, `parse_and_check_game` returns the id if every group
satisfies red ≤ 12, green ≤ 13 and blue ≤ 14, and returns 0 otherwise. -/
theorem parse_and_check_game_wellformed (junk : Int) (r : Day02.Record) (tail : List Nat)
    (hwf : r.wellFormed = true) (htail : tail = [] ∨ ∃ t, tail = 10 :: t) :
    ∃ st, Day02.parse_and_check_game junk (Day02.renderRecord r ++ tail)
            { number := 0, blue := 0, red := 0, green := 0 } 0
          = .ret (if r.passes then (r.idValue : Int) else 0) st := by
  obtain ⟨st, hst, -⟩ := Day02.parse_wellformed junk r tail hwf htail
  exact ⟨st, hst⟩

theorem parse_and_check_game_wellformed_witness :
    (∃ st, Day02.parse_and_check_game 0
            (bytes "Game 5: 6 red, 1 blue, 3 green; 2 blue, 1 red, 2 green\n")
            { number := 0, blue := 0, red := 0, green := 0 } 0 = .ret 5 st)
      ∧ ∃ st, Day02.parse_and_check_game 0
            (bytes "Game 4: 1 green, 3 red, 6 blue; 3 green, 6 red; 3 green, 15 blue, 14 red")
            { number := 0, blue := 0, red := 0, green := 0 } 0 = .ret 0 st :=
  ⟨parse_and_check_game_wellformed 0
      (Day02.game 5 [[Day02.draw 6 .red, Day02.draw 1 .blue, Day02.draw 3 .green],
        [Day02.draw 2 .blue, Day02.draw 1 .red, Day02.draw 2 .green]]) [10]
      (by decide) (Or.inr ⟨[], rfl⟩),
    parse_and_check_game_wellformed 0
      (Day02.game 4 [[Day02.draw 1 .green, Day02.draw 3 .red, Day02.draw 6 .blue],
        [Day02.draw 3 .green, Day02.draw 6 .red],
        [Day02.draw 3 .green, Day02.draw 15 .blue, Day02.draw 14 .red]]) []
      (by decide) (Or.inl rfl)⟩

/-- C3, refuted as stated: the two records of `overflowGames` are well-formed
and pass, their ids add up to 4294967294, and `main` ends with the total -2. -/
theorem day02_total_overflow_counterexample :
    (∀ r ∈ Day02.overflowGames, r.wellFormed = true ∧ r.passes = true)
      ∧ (Day02.overflowGames.map Day02.Record.score).sum = 4294967294
      ∧ Day02.renderInput Day02.overflowGames true
          = bytes "Game 2147483647: 1 red\nGame 2147483647: 1 red\n"
      ∧ Day02.main (fun _ => 0) (Day02.renderInput Day02.overflowGames true) = some (-2) := by
  decide

set_option maxRecDepth 100000 in
/-- C3, amended: for a file of well-formed records, with or without the
newline of the last line, whose passing ids add up to a value within the range
of `int`, the total is the sum of the ids of the records that pass; on
the example of the header comment the total is 8. -/
theorem day02_total_of_wellformed_records (junk : Nat → Int) (rs : List Day02.Record)
    (closed : Bool) (hwf : ∀ r ∈ rs, r.wellFormed = true)
    (hsum : (rs.map Day02.Record.score).sum < 2147483648) :
    Day02.main junk (Day02.renderInput rs closed)
        = some (((rs.map Day02.Record.score).sum : Nat) : Int)
      ∧ Day02.main junk Day02.exampleText = some 8 := by
  constructor
  · unfold Day02.main
    rw [Day02.main_loop_records junk closed rs 0 0 hwf (by omega)]
    rw [zero_add, Day02.wrapInt_of_range _ (by omega) (by omega)]
  · have h1 : Day02.exampleText = Day02.renderInput Day02.exampleGames true := by decide
    have h2 : ∀ r ∈ Day02.exampleGames, r.wellFormed = true := by decide
    have h3 : (Day02.exampleGames.map Day02.Record.score).sum = 8 := by decide
    unfold Day02.main
    rw [h1, Day02.main_loop_records junk true Day02.exampleGames 0 0 h2 (by omega), h3]
    rfl

theorem day02_total_of_wellformed_records_witness :
    Day02.main (fun _ => 0) (Day02.renderInput Day02.exampleGames false)
        = some (((Day02.exampleGames.map Day02.Record.score).sum : Nat) : Int)
      ∧ Day02.main (fun _ => 0) Day02.exampleText = some 8 :=
  day02_total_of_wellformed_records (fun _ => 0) Day02.exampleGames false
    (by decide) (by decide)

/-- C7: on the text of a record that follows the grammar and has a pair with
a count of 0, `parse_and_check_game` returns 0, whether or not the groups
satisfy the thresholds. -/
theorem parse_and_check_game_zero_count (junk : Int) (r : Day02.Record) (tail : List Nat)
    (hnumeric : r.numeric = true) (htail : tail = [] ∨ ∃ t, tail = 10 :: t)
    (hzero : ∃ g ∈ r.groups, ∃ d ∈ g, d.value = 0) :
    ∃ st, Day02.parse_and_check_game junk (Day02.renderRecord r ++ tail)
            { number := 0, blue := 0, red := 0, green := 0 } 0 = .ret 0 st := by
  obtain ⟨hid, hnum⟩ := Day02.numeric_parts r hnumeric
  obtain ⟨st, hst, -⟩ := Day02.parse_record junk r tail hid hnum htail
  refine ⟨st, ?_⟩
  rw [hst]
  obtain ⟨g, hg, d, hd, hv⟩ := hzero
  have hacc : r.groups.all (Day02.accepted (clampLong (r.idValue : Int))) = false := by
    rw [List.all_eq_false]
    refine ⟨g, hg, ?_⟩
    have : g.all (fun d => decide (0 < d.value)) = false := by
      rw [List.all_eq_false]
      exact ⟨d, hd, by simp [hv]⟩
    simp [Day02.accepted, this]
  simp [hacc]

theorem parse_and_check_game_zero_count_witness :
    ∃ st, Day02.parse_and_check_game 0 (bytes "Game 1: 3 blue, 0 red\n")
            { number := 0, blue := 0, red := 0, green := 0 } 0 = .ret 0 st :=
  parse_and_check_game_zero_count 0 (Day02.game 1 [[Day02.draw 3 .blue, Day02.draw 0 .red]]) [10]
    (by decide) (Or.inr ⟨[], rfl⟩)
    ⟨_, List.mem_singleton.mpr rfl, Day02.draw 0 .red, by decide, by decide⟩

/-! ## Day 1: further lemmas -/

namespace Day01

/-- The loop test and body leave the locals alone on any other character. -/
theorem loop_filter_significant (input : List Nat) (st : Locals) :
    loop st (input.filter significant) = loop st input := by
  induction input generalizing st with
  | nil => rfl
  | cons c cs ih =>
    by_cases hs : significant c = true
    · rw [List.filter_cons_of_pos hs, loop_cons, loop_cons, ih]
    · have hd : isdigit c = false := by
        simp only [significant, Bool.or_eq_true, not_or, Bool.not_eq_true] at hs
        exact hs.1
      have hn : c ≠ 10 := by
        simp only [significant, Bool.or_eq_true, not_or, Bool.not_eq_true] at hs
        simpa using hs.2
      rw [List.filter_cons_of_neg hs, loop_cons, body_other st c hd hn, ih]

/-- With the write pointer at `ns + 1` the first slot holds a digit, with the
write pointer at `ns` the second slot is empty. -/
theorem body_keeps_shape (st : Locals) (c : Nat) (a b : Nat) (hns : st.ns = [a, b, 0])
    (ha : nulOrDigit a = true)
    (hp : (st.ptr = 0 ∧ b = 0) ∨ (st.ptr = 1 ∧ isdigit a = true ∧ nulOrDigit b = true)) :
    ∃ a1 b1, (body st c).ns = [a1, b1, 0] ∧ nulOrDigit a1 = true
      ∧ (((body st c).ptr = 0 ∧ b1 = 0)
          ∨ ((body st c).ptr = 1 ∧ isdigit a1 = true ∧ nulOrDigit b1 = true)) := by
  have h10 : isdigit 10 = false := by decide
  by_cases hn : c = 10
  · subst hn
    refine ⟨a, 0, ?_, ha, Or.inl ⟨?_, rfl⟩⟩
    · simp [body, h10, hns, duplicateFirst]
    · simp [body, h10]
  · by_cases hd : isdigit c = true
    · rw [body_digit st c hd]
      have hcd : nulOrDigit c = true := by simp [nulOrDigit, hd]
      rcases hp with ⟨h0, hb⟩ | ⟨h1, had, hbd⟩
      · subst hb
        exact ⟨c, 0, by simp [hns, h0], hcd, Or.inr ⟨rfl, hd, by decide⟩⟩
      · exact ⟨a, c, by simp [hns, h1], ha, Or.inr ⟨rfl, had, hcd⟩⟩
    · simp only [Bool.not_eq_true] at hd
      rw [body_other st c hd hn]
      exact ⟨a, b, hns, ha, hp⟩

theorem loop_keeps_shape (input : List Nat) (st : Locals) (a b : Nat) (hns : st.ns = [a, b, 0])
    (ha : nulOrDigit a = true)
    (hp : (st.ptr = 0 ∧ b = 0) ∨ (st.ptr = 1 ∧ isdigit a = true ∧ nulOrDigit b = true)) :
    ∃ a1 b1, (loop st input).ns = [a1, b1, 0] ∧ nulOrDigit a1 = true
      ∧ (((loop st input).ptr = 0 ∧ b1 = 0)
          ∨ ((loop st input).ptr = 1 ∧ isdigit a1 = true ∧ nulOrDigit b1 = true)) := by
  induction input generalizing st a b with
  | nil => exact ⟨a, b, hns, ha, hp⟩
  | cons c cs ih =>
    obtain ⟨a1, b1, h1, h2, h3⟩ := body_keeps_shape st c a b hns ha hp
    rw [loop_cons]
    exact ih (body st c) a1 b1 h1 h2 h3

/-- Every state of the loop, on every input, has the shape of `bufferOk`. -/
theorem loop_bufferOk (input : List Nat) : bufferOk (loop init input) = true := by
  obtain ⟨a, b, hns, ha, hp⟩ :=
    loop_keeps_shape input init 0 0 rfl (by decide) (Or.inl ⟨rfl, rfl⟩)
  have hb : nulOrDigit b = true := by
    rcases hp with ⟨-, h⟩ | ⟨-, -, h⟩
    · subst h
      decide
    · exact h
  have hab : (!isdigit b || isdigit a) = true := by
    rcases hp with ⟨-, h⟩ | ⟨-, h, -⟩
    · subst h
      simp [isdigit]
    · simp [h]
  have hptr : (loop init input).ptr ≤ 1 := by
    rcases hp with ⟨h, -⟩ | ⟨h, -⟩ <;> omega
  simp [bufferOk, hns, ha, hb, hab, hptr]

theorem nulOrDigit_cases (a : Nat) (h : nulOrDigit a = true) : a = 0 ∨ isdigit a = true := by
  simpa [nulOrDigit] using h

theorem digit_value_le (d : Nat) (h : isdigit d = true) : d - 48 ≤ 9 := by
  simp only [isdigit, Bool.and_eq_true, decide_eq_true_eq] at h
  omega

/-- The value converted at a newline lies between 0 and 99, and the string
converted has at most two digits. -/
theorem newline_value_range (pre : List Nat) :
    digitCount (duplicateFirst (loop init pre).ns) ≤ 2
      ∧ 0 ≤ (strtol (duplicateFirst (loop init pre).ns)).1
      ∧ (strtol (duplicateFirst (loop init pre).ns)).1 ≤ 99 := by
  obtain ⟨a, b, hns, ha, hp⟩ :=
    loop_keeps_shape pre init 0 0 rfl (by decide) (Or.inl ⟨rfl, rfl⟩)
  have hcount : ∀ x y : Nat, digitCount [x, y, 0] ≤ 2 := by
    intro x y
    have hlen : ([x, y, 0].takeWhile (fun c => c != 0)).length ≤ 2 := by
      by_cases hx : x = 0 <;> by_cases hy : y = 0 <;> simp [List.takeWhile_cons, hx, hy]
    unfold digitCount
    exact le_trans (List.length_filter_le _ _) hlen
  have htwo : ∀ x y : Nat, isdigit x = true → isdigit y = true →
      0 ≤ (strtol [x, y, 0]).1 ∧ (strtol [x, y, 0]).1 ≤ 99 := by
    intro x y hx hy
    rw [strtol_two_digits x y hx hy]
    have h1 := digit_value_le x hx
    have h2 := digit_value_le y hy
    constructor
    · exact Int.natCast_nonneg _
    · have : 10 * (x - 48) + (y - 48) ≤ 99 := by omega
      exact_mod_cast this
  rw [hns]
  have hdup : duplicateFirst [a, b, 0] = [a, if b = 0 then a else b, 0] := by
    simp [duplicateFirst]
  rw [hdup]
  refine ⟨hcount _ _, ?_⟩
  rcases hp with ⟨-, hb⟩ | ⟨-, had, hbd⟩
  · subst hb
    simp only [if_true]
    rcases nulOrDigit_cases a ha with h0 | hd
    · subst h0
      decide
    · exact htwo a a hd hd
  · rcases nulOrDigit_cases b hbd with h0 | hd
    · subst h0
      simp only [if_true]
      exact htwo a a had had
    · have hb0 : b ≠ 0 := isdigit_ne_zero b hd
      simp only [hb0, if_false]
      exact htwo a b had hd

/-- The sum after one more newline. -/
theorem main_snoc_newline (pre : List Nat) :
    main (pre ++ [10]) = main pre + (strtol (duplicateFirst (loop init pre).ns)).1 := by
  have h10 : isdigit 10 = false := by decide
  simp only [main, loop_append]
  show (body (loop init pre) 10).sum = _
  simp [body, h10]

end Day01

/-! ## Day 1: further claims -/

/-- C12: characters that are neither decimal digits nor newlines are ignored:
deleting all of them leaves the total unchanged, and two inputs that agree
after this deletion (one obtained from the other by deleting or inserting
such characters) have the same total. -/
theorem day01_other_characters_ignored (a b : List Nat)
    (h : a.filter Day01.significant = b.filter Day01.significant) :
    Day01.main (a.filter Day01.significant) = Day01.main a ∧ Day01.main a = Day01.main b := by
  have ha := Day01.loop_filter_significant a Day01.init
  have hb := Day01.loop_filter_significant b Day01.init
  refine ⟨by simp only [Day01.main, ha], ?_⟩
  simp only [Day01.main, ← ha, ← hb, h]

theorem day01_other_characters_ignored_witness :
    Day01.main ((bytes "pqr3stu8vwx\n").filter Day01.significant)
        = Day01.main (bytes "pqr3stu8vwx\n")
      ∧ Day01.main (bytes "pqr3stu8vwx\n") = Day01.main (bytes "3 and 8, \tthen\n") :=
  day01_other_characters_ignored (bytes "pqr3stu8vwx\n") (bytes "3 and 8, \tthen\n") (by decide)

/-- C19: at every step of the loop, on every input, the write pointer is `ns`
or `ns + 1`, `ns[2]` is NUL, `ns[0]` and `ns[1]` are NUL or a digit and a digit
in `ns[1]` comes with a digit in `ns[0]`; the string converted at a newline has
at most two digits, a newline adds between 0 and 99 and no other character
adds anything. -/
theorem day01_buffer_invariant (pre : List Nat) :
    Day01.bufferOk (Day01.loop Day01.init pre) = true
      ∧ Day01.digitCount (Day01.duplicateFirst (Day01.loop Day01.init pre).ns) ≤ 2
      ∧ Day01.main pre ≤ Day01.main (pre ++ [10])
      ∧ Day01.main (pre ++ [10]) ≤ Day01.main pre + 99
      ∧ ∀ c, c ≠ 10 → Day01.main (pre ++ [c]) = Day01.main pre := by
  obtain ⟨h1, h2, h3⟩ := Day01.newline_value_range pre
  refine ⟨Day01.loop_bufferOk pre, h1, ?_, ?_, ?_⟩
  · rw [Day01.main_snoc_newline]
    omega
  · rw [Day01.main_snoc_newline]
    omega
  · intro c hc
    exact Day01.main_append_no_newline pre [c] (by simpa using hc.symm)

/-! ## Day 2: further lemmas -/

namespace Day02

theorem charAt_drop (line : List Nat) (i c : Nat) (h : charAt line i = some c) :
    (line ++ [0]).drop i = c :: (line ++ [0]).drop (i + 1) := by
  unfold charAt at h
  obtain ⟨hlt, hc⟩ := List.getElem?_eq_some.mp h
  rw [List.drop_eq_getElem_cons hlt, hc]

theorem charAt_none (line : List Nat) (i : Nat) (h : charAt line i = none) :
    (line ++ [0]).drop i = [] := by
  unfold charAt at h
  exact List.drop_eq_nil_of_le (List.getElem?_eq_none_iff.mp h)

/-- A pass is the `switch` on the character under the cursor. -/
theorem body_charAt (junk : Int) (line : List Nat) (s : Scan) (c : Nat)
    (h : charAt line s.cursor = some c) :
    body junk line s = dispatch junk s c ((line ++ [0]).drop (s.cursor + 1)) := by
  unfold body
  rw [charAt_drop line s.cursor c h]

theorem charAt_append (pre rest : List Nat) (c : Nat) :
    charAt (pre ++ c :: rest) pre.length = some c := by
  unfold charAt
  rw [List.append_assoc, List.getElem?_append_right (le_refl _)]
  simp

theorem charAt_end (line : List Nat) : charAt line line.length = some 0 := by
  simp [charAt]

/-- A loop head at which the pass returns or faults decides the call. -/
theorem arrives_result (junk : Int) (line : List Nat) (game : game_t) (cursor : Nat)
    (s : Scan) (o : Outcome) (harr : arrivesAt junk line game cursor s)
    (hb : body junk line s = o) (ho : ∀ s1, o ≠ .running s1) :
    parse_and_check_game junk line game cursor = o := by
  obtain ⟨s0, k, henter, hloop⟩ := harr
  unfold parse_and_check_game
  rw [henter]
  have := scan_loop_trans junk line k 1 s0 s o hloop (scan_loop_stop junk line 0 s o hb ho)
  exact scan_loop_result junk line _ s0 o this ho

/-- Function `strtol` at a letter converts nothing. -/
theorem strtol_letter (c : Nat) (rest : List Nat) (hc : isLetter c = true) :
    strtol (c :: rest) = (0, 0) := by
  have hsp : isspace c = false := by
    simp only [isLetter, Bool.or_eq_true, Bool.and_eq_true, decide_eq_true_eq] at hc
    simp only [isspace, Bool.or_eq_false_iff, Bool.and_eq_false_imp, decide_eq_true_eq,
      decide_eq_false_iff_not, beq_eq_false_iff_ne]
    omega
  have hdg : isdigit c = false := by
    simp only [isLetter, Bool.or_eq_true, Bool.and_eq_true, decide_eq_true_eq] at hc
    simp only [isdigit, Bool.and_eq_false_imp, decide_eq_true_eq, decide_eq_false_iff_not]
    omega
  have h45 : ((some c == some 45) : Bool) = false := by
    simp only [isLetter, Bool.or_eq_true, Bool.and_eq_true, decide_eq_true_eq] at hc
    simp
    omega
  have h43 : ((some c == some 43) : Bool) = false := by
    simp only [isLetter, Bool.or_eq_true, Bool.and_eq_true, decide_eq_true_eq] at hc
    simp
    omega
  have hdw : (c :: rest).dropWhile isspace = c :: rest := by
    rw [List.dropWhile_cons_of_neg (by simp [hsp])]
  have htw : (c :: rest).takeWhile isdigit = [] := by
    rw [List.takeWhile_cons_of_neg (by simp [hdg])]
  simp only [strtol, hdw, List.head?_cons, h45, h43, Bool.or_self, Bool.false_eq_true, if_false,
    htw]
  simp

/-- The pass on a space, a comma or a carriage return. -/
theorem body_separator (junk : Int) (line : List Nat) (s : Scan) (c : Nat)
    (h : charAt line s.cursor = some c) (hc : c = 32 ∨ c = 44 ∨ c = 13) :
    body junk line s = .running { s with cursor := s.cursor + 1 } := by
  rw [body_charAt junk line s c h]
  rcases hc with h1 | h1 | h1 <;> subst h1 <;> simp [dispatch]

/-- The pass on a letter that starts no color word. -/
theorem body_letter (junk : Int) (line : List Nat) (s : Scan) (c : Nat)
    (h : charAt line s.cursor = some c) (hl : isLetter c = true)
    (hr : c ≠ 114) (hg : c ≠ 103) (hb : c ≠ 98) :
    body junk line s = .ret 0 { s with number := some 0 } := by
  rw [body_charAt junk line s c h]
  have hne : c ≠ 10 ∧ c ≠ 0 ∧ c ≠ 44 ∧ c ≠ 32 ∧ c ≠ 13 ∧ c ≠ 59 := by
    simp only [isLetter, Bool.or_eq_true, Bool.and_eq_true, decide_eq_true_eq] at hl
    omega
  obtain ⟨h10, h0, h44, h32, h13, h59⟩ := hne
  unfold dispatch
  simp only [h10, h0, h44, h32, h13, h59, hr, hg, hb, or_self, if_false, strtol_letter c _ hl]
  simp

/-! ### The first four characters are not looked at -/

theorem body_skip (junk : Int) (a b rest : List Nat) (s : Scan) (hlen : a.length = b.length)
    (hs : a.length ≤ s.cursor) :
    body junk (a ++ rest) s = body junk (b ++ rest) s := by
  obtain ⟨i, hi⟩ : ∃ i, s.cursor = a.length + i := ⟨s.cursor - a.length, by omega⟩
  have h1 : (a ++ rest ++ [0]).drop s.cursor = (rest ++ [0]).drop i := by
    rw [hi, List.append_assoc, List.drop_append]
  have h2 : (b ++ rest ++ [0]).drop s.cursor = (rest ++ [0]).drop i := by
    rw [hi, hlen, List.append_assoc, List.drop_append]
  unfold body
  rw [h1, h2]

theorem enter_skip (a b rest : List Nat) (g : game_t) (cursor : Nat)
    (ha : a.length = cursor + 4) (hb : b.length = cursor + 4) :
    enter (a ++ rest) g cursor = enter (b ++ rest) g cursor := by
  have h1 : (a ++ rest ++ [0]).drop (cursor + 4) = rest ++ [0] := by
    rw [← ha, List.append_assoc, List.drop_left]
  have h2 : (b ++ rest ++ [0]).drop (cursor + 4) = rest ++ [0] := by
    rw [← hb, List.append_assoc, List.drop_left]
  unfold enter
  rw [h1, h2]

theorem scan_loop_skip (junk : Int) (a b rest : List Nat) (hlen : a.length = b.length)
    (n : Nat) : ∀ s : Scan, a.length ≤ s.cursor →
      loop junk (a ++ rest) n s = loop junk (b ++ rest) n s := by
  induction n with
  | zero => intro s _; rfl
  | succ n ih =>
    intro s hs
    have hb := body_skip junk a b rest s hlen hs
    cases h : body junk (a ++ rest) s with
    | running s1 =>
      have h1 := (body_advances junk _ s s1 h).1
      rw [scan_loop_succ junk _ n s s1 h, scan_loop_succ junk _ n s s1 (by rw [← hb, h])]
      exact ih s1 (by omega)
    | ret v st =>
      rw [scan_loop_stop junk _ n s _ h (by simp),
        scan_loop_stop junk _ n s _ (by rw [← hb, h]) (by simp)]
    | fault =>
      rw [scan_loop_stop junk _ n s _ h (by simp),
        scan_loop_stop junk _ n s _ (by rw [← hb, h]) (by simp)]

/-- Two lines that differ only in the four characters behind the cursor are
scanned alike. -/
theorem parse_skip (junk : Int) (a b rest : List Nat) (g : game_t) (cursor : Nat)
    (ha : a.length = cursor + 4) (hb : b.length = cursor + 4) :
    parse_and_check_game junk (a ++ rest) g cursor
      = parse_and_check_game junk (b ++ rest) g cursor := by
  unfold parse_and_check_game
  rw [← enter_skip a b rest g cursor ha hb]
  cases he : enter (a ++ rest) g cursor with
  | running s0 =>
    have h0 := enter_cursor _ g cursor s0 he
    simp only [List.length_append, ha, hb]
    have := scan_loop_skip junk a b rest (by omega) (cursor + 4 + rest.length + 2) s0 (by omega)
    exact this
  | ret v st => rfl
  | fault => rfl

/-- A loop head on the line terminator makes the function return there. -/
theorem body_terminator (junk : Int) (line : List Nat) (s : Scan) (c : Nat)
    (h : charAt line s.cursor = some c) (hc : c = 10 ∨ c = 0) :
    body junk line s
      = .ret (if is_game_passed s.game then wrapInt s.game.number else 0) s := by
  rw [body_charAt junk line s c h]
  rcases hc with h1 | h1 <;> subst h1 <;> simp [dispatch]

end Day02

/-! ## Day 2: the loop heads of a well-formed record -/

namespace Day02

theorem headsBefore_refl (junk : Int) (line : List Nat) (s : Scan) (Q : Scan → Prop) :
    headsBefore junk line s s.cursor Q := by
  intro j sj hj hlt
  have := scan_loop_cursor junk line j s sj hj
  omega

theorem headsBefore_step (junk : Int) (line : List Nat) (s s1 : Scan) (Q : Scan → Prop)
    (hb : body junk line s = .running s1) (hq : Q s) :
    headsBefore junk line s s1.cursor Q := by
  intro j sj hj hlt
  cases j with
  | zero =>
    simp only [loop, Outcome.running.injEq] at hj
    subst hj
    exact hq
  | succ j =>
    rw [scan_loop_succ junk line j s s1 hb] at hj
    have := scan_loop_cursor junk line j s1 sj hj
    omega

theorem headsBefore_trans (junk : Int) (line : List Nat) (m : Nat) (s s1 : Scan) (bound : Nat)
    (Q : Scan → Prop) (hm : loop junk line m s = .running s1)
    (h1 : headsBefore junk line s s1.cursor Q) (h2 : headsBefore junk line s1 bound Q) :
    headsBefore junk line s bound Q := by
  intro j sj hj hlt
  rcases Nat.lt_or_ge j m with hjm | hjm
  · obtain ⟨d, hd⟩ : ∃ d, m = j + (d + 1) := ⟨m - j - 1, by omega⟩
    rw [hd, scan_loop_add junk line j (d + 1) s sj hj] at hm
    have := scan_loop_cursor junk line (d + 1) sj s1 hm
    exact h1 j sj hj (by omega)
  · obtain ⟨d, hd⟩ : ∃ d, j = m + d := ⟨j - m, by omega⟩
    rw [hd, scan_loop_add junk line m d s s1 hm] at hj
    exact h2 d sj hj hlt

/-- All loop heads of a run that ends at `sf`: `sf` itself and loop heads with
the cursor before that of `sf`. -/
theorem arrive_cases (junk : Int) (line : List Nat) (k j : Nat) (s0 sf s : Scan) (v : Int)
    (hk : loop junk line k s0 = .running sf) (hb : body junk line sf = .ret v sf)
    (hj : loop junk line j s0 = .running s) : s = sf ∨ s.cursor < sf.cursor := by
  rcases Nat.lt_trichotomy j k with h | h | h
  · obtain ⟨d, hd⟩ : ∃ d, k = j + (d + 1) := ⟨k - j - 1, by omega⟩
    rw [hd, scan_loop_add junk line j (d + 1) s0 s hj] at hk
    have := scan_loop_cursor junk line (d + 1) s sf hk
    exact Or.inr (by omega)
  · subst h
    rw [hk] at hj
    simp only [Outcome.running.injEq] at hj
    exact Or.inl hj.symm
  · obtain ⟨d, hd⟩ : ∃ d, j = k + (d + 1) := ⟨j - k - 1, by omega⟩
    rw [hd, scan_loop_add junk line k (d + 1) s0 sf hk,
      scan_loop_stop junk line d sf _ hb (by simp)] at hj
    exact absurd hj (by simp)

theorem head_of_plain (r : Record) (line : List Nat) (s : Scan) (c : Nat)
    (hid : s.game.number = clampLong (r.idValue : Int)) (hc : charAt line s.cursor = some c)
    (hb : isBoundary c = false) (hl : isColorLetter c = false) : Head r line s := by
  refine ⟨hid, ?_, ?_⟩
  · intro c1 h1 h2
    rw [hc] at h1
    cases h1
    rw [hb] at h2
    exact absurd h2 (by simp)
  · intro c1 h1 h2
    rw [hc] at h1
    cases h1
    rw [hl] at h2
    exact absurd h2 (by simp)

theorem head_of_color (r : Record) (line : List Nat) (s : Scan) (c : Nat)
    (hid : s.game.number = clampLong (r.idValue : Int)) (hc : charAt line s.cursor = some c)
    (hb : isBoundary c = false) (hcol : atColor line s) : Head r line s := by
  refine ⟨hid, ?_, fun _ _ _ => hcol⟩
  intro c1 h1 h2
  rw [hc] at h1
  cases h1
  rw [hb] at h2
  exact absurd h2 (by simp)

theorem head_of_boundary (r : Record) (line : List Nat) (s : Scan) (c : Nat)
    (hid : s.game.number = clampLong (r.idValue : Int)) (hc : charAt line s.cursor = some c)
    (hl : isColorLetter c = false) (hend : atGroupEnd r s) : Head r line s := by
  refine ⟨hid, fun _ _ _ => hend, ?_⟩
  intro c1 h1 h2
  rw [hc] at h1
  cases h1
  rw [hl] at h2
  exact absurd h2 (by simp)

theorem charAt_at (line pre rest : List Nat) (c i : Nat) (hline : line = pre ++ c :: rest)
    (hi : i = pre.length) : charAt line i = some c := by
  subst hline
  subst hi
  exact charAt_append pre rest c

theorem charAt_color (line pre rest : List Nat) (col : Color) (i : Nat)
    (hline : line = pre ++ col.spelling ++ rest) (hi : i = pre.length) :
    ∃ c, charAt line i = some c ∧ isBoundary c = false ∧ isColorLetter c = true := by
  cases col
  · exact ⟨114, charAt_at line pre ([101, 100] ++ rest) 114 i
      (by simp [hline, Color.spelling]) hi, by decide, by decide⟩
  · exact ⟨103, charAt_at line pre ([114, 101, 101, 110] ++ rest) 103 i
      (by simp [hline, Color.spelling]) hi, by decide, by decide⟩
  · exact ⟨98, charAt_at line pre ([108, 117, 101] ++ rest) 98 i
      (by simp [hline, Color.spelling]) hi, by decide, by decide⟩

theorem digit_is_plain (a : Nat) (h : isdigit a = true) :
    isBoundary a = false ∧ isColorLetter a = false := by
  obtain ⟨-, -, -, h10, h0, -, -, -, h59, h114, h98, h103⟩ := isdigit_facts a h
  simp [isBoundary, isColorLetter, h10, h0, h59, h114, h98, h103]

/-- The two loop heads of a pair with a positive count: on the first digit of
the count and on the first letter of the color word. -/
theorem heads_draw (junk : Int) (r : Record) (line pre rest : List Nat) (d : Draw) (s : Scan)
    (hline : line = pre ++ renderDraw d ++ rest) (hcur : s.cursor = pre.length)
    (hnum : isNumeral d.count = true) (hpos : 0 < d.value)
    (hid : s.game.number = clampLong (r.idValue : Int)) :
    ∃ s1, loop junk line 2 s = .running s1
      ∧ s1.game = addCubes s.game d.color (clampLong (d.value : Int))
      ∧ s1.cursor = pre.length + (renderDraw d).length
      ∧ headsBefore junk line s s1.cursor (Head r line) := by
  obtain ⟨g, cur, num⟩ := s
  simp only at hcur hid
  subst hcur
  have hv : clampLong (digitsValue d.count : Int) ≠ 0 := by
    rw [Ne, clampLong_nat_eq_zero]
    exact Nat.pos_iff_ne_zero.mp hpos
  have h1 := body_count junk line pre (d.color.spelling ++ rest) d.count g num
    (by simp [hline, renderDraw]) hnum
  rw [if_neg hv] at h1
  have h2 := body_color junk line (pre ++ d.count ++ [32]) rest d.color g
    (clampLong (digitsValue d.count : Int)) (by simp [hline, renderDraw])
  have hc : (pre ++ d.count ++ [32]).length = pre.length + d.count.length + 1 := by
    simp
    omega
  rw [hc] at h2
  -- the loop head on the first digit
  obtain ⟨hne, hds⟩ := (isNumeral_iff d.count).mp hnum
  obtain ⟨a, ds1, hcount⟩ : ∃ a ds1, d.count = a :: ds1 := by
    cases hd : d.count with
    | nil => exact absurd hd hne
    | cons a ds1 => exact ⟨a, ds1, rfl⟩
  have ha : isdigit a = true := hds a (by simp [hcount])
  have hchar0 : charAt line pre.length = some a :=
    charAt_at line pre (ds1 ++ 32 :: (d.color.spelling ++ rest)) a _
      (by simp [hline, renderDraw, hcount]) rfl
  have hhead0 : Head r line { game := g, cursor := pre.length, number := num } :=
    head_of_plain r line _ a hid hchar0 (digit_is_plain a ha).1 (digit_is_plain a ha).2
  -- the loop head on the color word
  obtain ⟨c, hchar1, hb1, -⟩ := charAt_color line (pre ++ d.count ++ [32]) rest d.color
    (pre.length + d.count.length + 1) (by simp [hline, renderDraw]) hc.symm
  have hhead1 : Head r line
      ⟨g, pre.length + d.count.length + 1, some (clampLong (digitsValue d.count : Int))⟩ :=
    head_of_color r line _ c hid hchar1 hb1 ⟨pre, d, rest, hline, hnum, rfl, rfl⟩
  have hb0 := headsBefore_step junk line _ _ (Head r line) h1 hhead0
  have hb1 := headsBefore_step junk line _ _ (Head r line) h2 hhead1
  refine ⟨{ game := addCubes g d.color (clampLong (digitsValue d.count : Int)),
            cursor := pre.length + d.count.length + 1 + d.color.spelling.length,
            number := some (clampLong (digitsValue d.count : Int)) }, ?_, rfl, ?_, ?_⟩
  · rw [scan_loop_succ junk line 1 _ _ h1, scan_loop_succ junk line 0 _ _ h2]
    rfl
  · simp [renderDraw]
    omega
  · exact headsBefore_trans junk line 1 _ _ _ (Head r line)
      (by rw [scan_loop_succ junk line 0 _ _ h1]; rfl) hb0 hb1

/-- A separator with its loop head. -/
theorem heads_separator (junk : Int) (r : Record) (line pre rest : List Nat) (c : Nat)
    (s : Scan) (hline : line = pre ++ c :: rest) (hcur : s.cursor = pre.length)
    (hc : c = 44 ∨ c = 32 ∨ c = 13) (hid : s.game.number = clampLong (r.idValue : Int)) :
    loop junk line 1 s = .running { s with cursor := s.cursor + 1 }
      ∧ headsBefore junk line s (s.cursor + 1) (Head r line) := by
  have hchar : charAt line s.cursor = some c := charAt_at line pre rest c _ hline hcur
  have hplain : isBoundary c = false ∧ isColorLetter c = false := by
    rcases hc with h | h | h <;> subst h <;> exact ⟨by decide, by decide⟩
  have hb : body junk line s = .running { s with cursor := s.cursor + 1 } :=
    body_separator junk line s c hchar (by omega)
  refine ⟨by rw [scan_loop_succ junk line 0 _ _ hb]; rfl, ?_⟩
  exact headsBefore_step junk line s _ (Head r line) hb
    (head_of_plain r line s c hid hchar hplain.1 hplain.2)

/-- The loop heads of a group with positive counts. -/
theorem heads_group (junk : Int) (r : Record) (line : List Nat) (ds : List Draw) :
    ∀ (pre rest : List Nat) (s : Scan), line = pre ++ renderGroup ds ++ rest →
      s.cursor = pre.length → (∀ d ∈ ds, isNumeral d.count = true) →
      (∀ d ∈ ds, 0 < d.value) → s.game.number = clampLong (r.idValue : Int) →
      ∃ k s1, loop junk line k s = .running s1 ∧ s1.game = tally s.game ds
        ∧ s1.cursor = pre.length + (renderGroup ds).length
        ∧ headsBefore junk line s s1.cursor (Head r line) := by
  induction ds with
  | nil =>
    intro pre rest s _ hcur _ _ _
    exact ⟨0, s, rfl, rfl, by simp [renderGroup, hcur], headsBefore_refl junk line s _⟩
  | cons d ds ih =>
    intro pre rest s hline hcur hnum hpos hid
    have hnd : isNumeral d.count = true := hnum d (by simp)
    have hpd : 0 < d.value := hpos d (by simp)
    cases ds with
    | nil =>
      simp only [renderGroup] at hline ⊢
      obtain ⟨s1, h1, hg, hc, hh⟩ := heads_draw junk r line pre rest d s hline hcur hnd hpd hid
      exact ⟨2, s1, h1, by simpa [tally] using hg, hc, hh⟩
    | cons e es =>
      have hline1 : line = pre ++ renderDraw d ++ (44 :: 32 :: (renderGroup (e :: es) ++ rest)) := by
        simp [hline, renderGroup]
      obtain ⟨s1, h1, hg1, hc1, hh1⟩ :=
        heads_draw junk r line pre _ d s hline1 hcur hnd hpd hid
      have hid1 : s1.game.number = clampLong (r.idValue : Int) := by
        rw [hg1, addCubes_number, hid]
      obtain ⟨h2, hh2⟩ := heads_separator junk r line (pre ++ renderDraw d)
        (32 :: (renderGroup (e :: es) ++ rest)) 44 s1 (by simp [hline1]) (by simp [hc1])
        (Or.inl rfl) hid1
      obtain ⟨h3, hh3⟩ := heads_separator junk r line (pre ++ renderDraw d ++ [44])
        (renderGroup (e :: es) ++ rest) 32 { s1 with cursor := s1.cursor + 1 }
        (by simp [hline1]) (by simp [hc1]; omega) (Or.inr (Or.inl rfl)) hid1
      obtain ⟨k, s4, hk, hg4, hc4, hh4⟩ := ih (pre ++ renderDraw d ++ [44, 32]) rest
        { s1 with cursor := s1.cursor + 1 + 1 } (by simp [hline1]) (by simp [hc1]; omega)
        (fun x hx => hnum x (by simp [hx])) (fun x hx => hpos x (by simp [hx])) hid1
      have h12 := scan_loop_trans junk line _ _ _ _ _ h1 h2
      have h123 := scan_loop_trans junk line _ _ _ _ _ h12 h3
      refine ⟨_, s4, scan_loop_trans junk line _ k _ _ _ h123 hk, ?_, ?_, ?_⟩
      · simp only [hg4, tally_cons, hg1]
      · rw [hc4]
        simp [renderGroup]
        omega
      · have a1 := headsBefore_trans junk line 2 s s1 _ (Head r line) h1 hh1 hh2
        have a2 := headsBefore_trans junk line _ s _ _ (Head r line) h12 a1 hh3
        exact headsBefore_trans junk line _ s _ _ (Head r line) h123 a2 hh4

theorem renderDone_append (done : List (List Draw)) (g : List Draw) :
    renderDone (done ++ [g]) = renderDone done ++ renderGroup g ++ [59, 32] := by
  induction done with
  | nil => simp [renderDone]
  | cons a done ih => simp [renderDone, ih]

theorem terminator_char (line pre tail : List Nat) (hline : line = pre ++ tail)
    (htail : tail = [] ∨ ∃ t, tail = 10 :: t) :
    ∃ c, charAt line pre.length = some c ∧ (c = 10 ∨ c = 0) := by
  rcases htail with h | ⟨t, h⟩
  · subst h
    refine ⟨0, ?_, Or.inr rfl⟩
    have : pre.length = line.length := by simp [hline]
    rw [this]
    exact charAt_end line
  · subst h
    exact ⟨10, charAt_at line pre t 10 _ hline rfl, Or.inl rfl⟩

/-- The loop heads of the groups of a record, behind the groups `done`: the
run comes to a loop head `sf` on a boundary character and returns there. -/
theorem heads_groups (junk : Int) (r : Record) (line tail : List Nat) (gs : List (List Draw)) :
    ∀ (done : List (List Draw)) (pre : List Nat) (s : Scan), r.groups = done ++ gs →
      (gs ≠ [] ∨ done = []) → pre = header r ++ renderDone done →
      line = pre ++ renderGroups gs ++ tail → (tail = [] ∨ ∃ t, tail = 10 :: t) →
      s.cursor = pre.length →
      s.game = { number := clampLong (r.idValue : Int), blue := 0, red := 0, green := 0 } →
      (∀ g ∈ gs, ∀ d ∈ g, isNumeral d.count = true) → (∀ g ∈ gs, ∀ d ∈ g, 0 < d.value) →
      ∃ k sf v, loop junk line k s = .running sf ∧ body junk line sf = .ret v sf
        ∧ Head r line sf ∧ headsBefore junk line s sf.cursor (Head r line)
        ∧ ((∀ g ∈ gs.dropLast, is_game_passed (tally s.game g) = true) →
            sf.cursor = pre.length + (renderGroups gs).length) := by
  induction gs with
  | nil =>
    intro done pre s hgroups hne hpre hline htail hcur hgame _ _
    have hdone : done = [] := by
      rcases hne with h | h
      · exact absurd rfl h
      · exact h
    subst hdone
    obtain ⟨c, hchar, hc⟩ := terminator_char line pre tail (by simpa [renderGroups] using hline)
      htail
    rw [← hcur] at hchar
    have hcl : isColorLetter c = false := by
      rcases hc with h | h <;> subst h <;> decide
    have hend : atGroupEnd r s :=
      ⟨[], [], [], Or.inr ⟨by simpa using hgroups, rfl, rfl⟩,
        by simp [hcur, hpre, renderDone, renderGroup], by simp [hgame, tally]⟩
    refine ⟨0, s, _, rfl, body_terminator junk line s c hchar hc, ?_,
      headsBefore_refl junk line s _, fun _ => by simp [hcur, renderGroups]⟩
    exact head_of_boundary r line s c (by simp [hgame]) hchar hcl hend
  | cons g gs ih =>
    intro done pre s hgroups _ hpre hline htail hcur hgame hnum hpos
    have hid : s.game.number = clampLong (r.idValue : Int) := by simp [hgame]
    cases gs with
    | nil =>
      simp only [renderGroups] at hline ⊢
      obtain ⟨k, s1, hk, hg1, hc1, hh1⟩ := heads_group junk r line g pre tail s hline hcur
        (hnum g (by simp)) (hpos g (by simp)) hid
      obtain ⟨c, hchar, hc⟩ := terminator_char line (pre ++ renderGroup g) tail hline htail
      have hcur1 : s1.cursor = (pre ++ renderGroup g).length := by simp [hc1]
      rw [← hcur1] at hchar
      have hcl : isColorLetter c = false := by
        rcases hc with h | h <;> subst h <;> decide
      have hend : atGroupEnd r s1 :=
        ⟨done, g, [], Or.inl hgroups, by simp [hc1, hpre]; omega, by rw [hg1, hgame]⟩
      refine ⟨k, s1, _, hk, body_terminator junk line s1 c hchar hc, ?_, hh1, fun _ => hc1⟩
      exact head_of_boundary r line s1 c (by rw [hg1, tally_number, hid]) hchar hcl hend
    | cons h hs =>
      have hline1 : line = pre ++ renderGroup g ++ (59 :: 32 :: (renderGroups (h :: hs) ++ tail)) := by
        simp [hline, renderGroups]
      obtain ⟨k, s1, hk, hg1, hc1, hh1⟩ := heads_group junk r line g pre _ s hline1 hcur
        (hnum g (by simp)) (hpos g (by simp)) hid
      have hcur1 : s1.cursor = (pre ++ renderGroup g).length := by simp [hc1]
      have hchar : charAt line s1.cursor = some 59 :=
        charAt_at line (pre ++ renderGroup g) (32 :: (renderGroups (h :: hs) ++ tail)) 59 _
          (by simp [hline1]) hcur1
      have hid1 : s1.game.number = clampLong (r.idValue : Int) := by
        rw [hg1, tally_number, hid]
      have hend : atGroupEnd r s1 :=
        ⟨done, g, h :: hs, Or.inl hgroups, by simp [hc1, hpre]; omega, by rw [hg1, hgame]⟩
      have hhead1 : Head r line s1 :=
        head_of_boundary r line s1 59 hid1 hchar (by decide) hend
      have hsemi := scan_semicolon junk line (pre ++ renderGroup g)
        (32 :: (renderGroups (h :: hs) ++ tail)) s1 (by simp [hline1]) hcur1
      by_cases hpass : is_game_passed s1.game = true
      · rw [if_pos hpass] at hsemi
        have hh2 := headsBefore_step junk line s1 _ (Head r line) hsemi hhead1
        have h2 := scan_loop_succ junk line 0 _ _ hsemi
        rw [scan_loop_zero] at h2
        obtain ⟨h3, hh3⟩ := heads_separator junk r line (pre ++ renderGroup g ++ [59])
          (renderGroups (h :: hs) ++ tail) 32
          { s1 with game := { s1.game with red := 0, blue := 0, green := 0 },
                    cursor := s1.cursor + 1 }
          (by simp [hline1]) (by simp [hc1]; omega) (Or.inr (Or.inl rfl)) hid1
        obtain ⟨k2, sf, v, hk2, hbf, hhf, hh4, hfin⟩ := ih (done ++ [g])
          (pre ++ renderGroup g ++ [59, 32])
          { game := { s1.game with red := 0, blue := 0, green := 0 },
            cursor := s1.cursor + 1 + 1, number := s1.number }
          (by simp [hgroups]) (Or.inl (by simp))
          (by rw [hpre, renderDone_append]; simp)
          (by simp [hline1]) htail (by simp [hc1]; omega) (by simp [hid1])
          (fun x hx => hnum x (by simp [hx])) (fun x hx => hpos x (by simp [hx]))
        have h12 := scan_loop_trans junk line _ _ _ _ _ hk h2
        have h123 := scan_loop_trans junk line _ _ _ _ _ h12 h3
        refine ⟨_, sf, v, scan_loop_trans junk line _ k2 _ _ _ h123 hk2, hbf, hhf, ?_, ?_⟩
        · have a1 := headsBefore_trans junk line k s s1 _ (Head r line) hk hh1 hh2
          have a2 := headsBefore_trans junk line _ s _ _ (Head r line) h12 a1 hh3
          exact headsBefore_trans junk line _ s _ _ (Head r line) h123 a2 hh4
        · intro hall
          have hrest : ∀ x ∈ (h :: hs).dropLast, is_game_passed
              (tally { number := s1.game.number, blue := 0, red := 0, green := 0 } x) = true := by
            intro x hx
            have := hall x (by simp [List.dropLast, hx])
            rw [hgame] at this
            rw [hid1]
            exact this
          rw [hfin hrest]
          simp [renderGroups]
          omega
      · rw [if_neg hpass] at hsemi
        refine ⟨k, s1, 0, hk, hsemi, hhead1, hh1, ?_⟩
        intro hall
        have := hall g (by simp [List.dropLast])
        rw [← hg1] at this
        exact absurd this hpass

/-- The run of the call on the text of a record with positive counts: the
first loop head `s0`, the loop head `sf` at which the function returns, and the
loop heads in between. -/
theorem heads_record (junk : Int) (r : Record) (tail : List Nat)
    (hid : isNumeral r.id = true)
    (hnum : ∀ g ∈ r.groups, ∀ d ∈ g, isNumeral d.count = true)
    (hpos : ∀ g ∈ r.groups, ∀ d ∈ g, 0 < d.value)
    (htail : tail = [] ∨ ∃ t, tail = 10 :: t) :
    ∃ k s0 sf v,
      enter (renderRecord r ++ tail) { number := 0, blue := 0, red := 0, green := 0 } 0
          = .running s0
        ∧ loop junk (renderRecord r ++ tail) k s0 = .running sf
        ∧ body junk (renderRecord r ++ tail) sf = .ret v sf
        ∧ Head r (renderRecord r ++ tail) sf
        ∧ headsBefore junk (renderRecord r ++ tail) s0 sf.cursor (Head r (renderRecord r ++ tail))
        ∧ ((∀ g ∈ r.groups.dropLast, is_game_passed
              (tally { number := clampLong (r.idValue : Int), blue := 0, red := 0, green := 0 } g)
                = true) →
            sf.cursor = (renderRecord r).length) := by
  have hline : renderRecord r ++ tail
      = ([71, 97, 109, 101, 32] ++ r.id ++ [58]) ++ 32 :: (renderGroups r.groups ++ tail) := by
    simp [renderRecord]
  obtain ⟨h1, hh1⟩ := heads_separator junk r (renderRecord r ++ tail)
    ([71, 97, 109, 101, 32] ++ r.id ++ [58]) (renderGroups r.groups ++ tail) 32
    { game := { number := clampLong (r.idValue : Int), blue := 0, red := 0, green := 0 },
      cursor := r.id.length + 6, number := none } hline (by simp) (Or.inr (Or.inl rfl)) rfl
  obtain ⟨k, sf, v, hk, hbf, hhf, hh2, hfin⟩ := heads_groups junk r (renderRecord r ++ tail) tail
    r.groups [] (header r)
    { game := { number := clampLong (r.idValue : Int), blue := 0, red := 0, green := 0 },
      cursor := r.id.length + 6 + 1, number := none }
    rfl (Or.inr rfl) (by simp [renderDone]) (by simp [renderRecord, header]) htail
    (by simp [header]) rfl hnum hpos
  refine ⟨_, _, sf, v, enter_record r tail hid, scan_loop_trans junk _ _ k _ _ _ h1 hk, hbf, hhf,
    headsBefore_trans junk _ 1 _ _ _ _ h1 hh1 hh2, ?_⟩
  intro hall
  rw [hfin hall]
  simp [renderRecord, header]
  omega

/-- Every loop head of the call on the text of a record with positive counts
satisfies `Head`. -/
theorem record_heads (junk : Int) (r : Record) (tail : List Nat)
    (hid : isNumeral r.id = true)
    (hnum : ∀ g ∈ r.groups, ∀ d ∈ g, isNumeral d.count = true)
    (hpos : ∀ g ∈ r.groups, ∀ d ∈ g, 0 < d.value)
    (htail : tail = [] ∨ ∃ t, tail = 10 :: t) (s : Scan)
    (harr : arrivesAt junk (renderRecord r ++ tail)
      { number := 0, blue := 0, red := 0, green := 0 } 0 s) :
    Head r (renderRecord r ++ tail) s := by
  obtain ⟨k, s0, sf, v, henter, hk, hbf, hhf, hh, -⟩ :=
    heads_record junk r tail hid hnum hpos htail
  obtain ⟨s0a, j, henter1, hj⟩ := harr
  rw [henter] at henter1
  simp only [Outcome.running.injEq] at henter1
  subst henter1
  rcases arrive_cases junk _ k j s0 sf s v hk hbf hj with h | h
  · rw [h]
    exact hhf
  · exact hh j s hj h

theorem wellFormed_parts (r : Record) (h : r.wellFormed = true) :
    isNumeral r.id = true ∧ r.idValue < 2147483648
      ∧ (∀ g ∈ r.groups, ∀ d ∈ g, isNumeral d.count = true)
      ∧ (∀ g ∈ r.groups, ∀ d ∈ g, 0 < d.value)
      ∧ ∀ g ∈ r.groups, groupInRange g = true := by
  have hn := numeric_parts r (wellFormed_numeric r h)
  simp only [Record.wellFormed, Bool.and_eq_true, decide_eq_true_eq, List.all_eq_true] at h
  obtain ⟨⟨-, hidr⟩, hgroups⟩ := h
  exact ⟨hn.1, hidr, hn.2, fun g hg d hd => (hgroups g hg).2 d hd,
    fun g hg => (hgroups g hg).1⟩

theorem renderGroups_snoc (done : List (List Draw)) (g : List Draw) :
    renderGroups (done ++ [g]) = renderDone done ++ renderGroup g := by
  induction done with
  | nil => simp [renderGroups, renderDone]
  | cons a done ih =>
    cases hd : done ++ [g] with
    | nil => simp at hd
    | cons b l =>
      rw [List.cons_append, hd]
      simp only [renderGroups, renderDone]
      rw [← hd, ih]
      simp

/-- The counters tallied over a group within range are its totals. -/
theorem tally_totals (n : Int) (g : List Draw) (hr : groupInRange g = true) (c : Color) :
    (tally { number := n, blue := 0, red := 0, green := 0 } g).cubes c = (groupTotal c g : Int) := by
  simp only [groupInRange, Bool.and_eq_true, decide_eq_true_eq] at hr
  obtain ⟨⟨hred, hgreen⟩, hblue⟩ := hr
  have hb : (groupTotal c g : Int) ≤ 9223372036854775807 := by
    cases c <;> omega
  have h := tally_cubes c g { number := n, blue := 0, red := 0, green := 0 }
    (by cases c <;> simp [game_t.cubes]) (by cases c <;> simp [game_t.cubes] <;> omega)
  rw [h]
  cases c <;> simp [game_t.cubes]

/-- The pass at a loop head on a color word moves the cursor right behind the word. -/
theorem body_atColor (junk : Int) (line : List Nat) (s : Scan) (h : atColor line s) :
    ∃ (pre : List Nat) (col : Color) (rest : List Nat) (s1 : Scan),
      line = pre ++ col.spelling ++ rest ∧ s.cursor = pre.length
        ∧ body junk line s = .running s1 ∧ s1.cursor = pre.length + col.spelling.length := by
  obtain ⟨pre, d, rest, hline, -, hcur, hnumber⟩ := h
  obtain ⟨g, cur, num⟩ := s
  simp only at hcur hnumber
  subst hnumber
  have hlen : (pre ++ d.count ++ [32]).length = cur := by
    simp [hcur]
    omega
  have hb := body_color junk line (pre ++ d.count ++ [32]) rest d.color g
    (clampLong (d.value : Int)) (by simp [hline, renderDraw])
  rw [hlen] at hb
  exact ⟨pre ++ d.count ++ [32], d.color, rest, _, by simp [hline, renderDraw], hlen.symm, hb,
    by simp only [hlen]⟩

/-- The call on the text of a well-formed record in which no group closed by
a semicolon violates the thresholds returns with the cursor right behind the
text of the record. -/
theorem record_landing (junk : Int) (r : Record) (tail : List Nat) (hwf : r.wellFormed = true)
    (htail : tail = [] ∨ ∃ t, tail = 10 :: t)
    (hpass : ∀ g ∈ r.groups.dropLast, groupOk g = true) :
    ∃ v st, parse_and_check_game junk (renderRecord r ++ tail)
          { number := 0, blue := 0, red := 0, green := 0 } 0 = .ret v st
      ∧ st.cursor = (renderRecord r).length := by
  obtain ⟨hid, -, hnum, hpos, hrange⟩ := wellFormed_parts r hwf
  obtain ⟨k, s0, sf, v, henter, hk, hbf, -, -, hfin⟩ :=
    heads_record junk r tail hid hnum hpos htail
  refine ⟨v, sf, arrives_result junk _ _ 0 sf _ ⟨s0, k, henter, hk⟩ hbf (by simp), hfin ?_⟩
  intro g hg
  have hmem : g ∈ r.groups := List.mem_of_mem_dropLast hg
  have hacc := accepted_eq_groupOk (clampLong (r.idValue : Int)) g (hrange g hmem)
    (by simpa using hpos g hmem)
  rw [hpass g hg] at hacc
  simp only [accepted, Bool.and_eq_true] at hacc
  exact hacc.2

/-! ### Groups that pass, followed by a group that violates the thresholds -/

end Day02

/-! ## Day 2: further claims -/

/-- C15, refuted as stated: tab, vertical tab and form feed are whitespace
characters. In the line "Game 1:\t3 red" the first loop head lies on the tab;
the pass moves the cursor by three characters and assigns the pending count.
In "Game 1: 3 red\t" the loop head on the tab makes the function return 0, and
so does a vertical tab or a form feed in that place. -/
theorem separator_tab_counterexample :
    isspace 9 = true ∧ isspace 11 = true ∧ isspace 12 = true
      ∧ Day02.enter (bytes "Game 1:\t3 red") { number := 0, blue := 0, red := 0, green := 0 } 0
          = .running { game := { number := 1, blue := 0, red := 0, green := 0 }, cursor := 7,
                       number := none }
      ∧ Day02.charAt (bytes "Game 1:\t3 red") 7 = some 9
      ∧ Day02.body 0 (bytes "Game 1:\t3 red")
          { game := { number := 1, blue := 0, red := 0, green := 0 }, cursor := 7, number := none }
          = .running { game := { number := 1, blue := 0, red := 0, green := 0 }, cursor := 10,
                       number := some 3 }
      ∧ Day02.charAt (bytes "Game 1: 3 red\t") 13 = some 9
      ∧ Day02.loop 0 (bytes "Game 1: 3 red\t") 3
          { game := { number := 1, blue := 0, red := 0, green := 0 }, cursor := 7, number := none }
          = .running { game := { number := 1, blue := 0, red := 3, green := 0 }, cursor := 13,
                       number := some 3 }
      ∧ Day02.parse_and_check_game 0 (bytes "Game 1: 3 red\t")
          { number := 0, blue := 0, red := 0, green := 0 } 0
          = .ret 0 { game := { number := 1, blue := 0, red := 3, green := 0 }, cursor := 13,
                     number := some 0 }
      ∧ Day02.charAt (bytes "Game 1: 3 red\x0b") 13 = some 11
      ∧ Day02.parse_and_check_game 0 (bytes "Game 1: 3 red\x0b")
          { number := 0, blue := 0, red := 0, green := 0 } 0
          = .ret 0 { game := { number := 1, blue := 0, red := 3, green := 0 }, cursor := 13,
                     number := some 0 }
      ∧ Day02.charAt (bytes "Game 1: 3 red\x0c") 13 = some 12
      ∧ Day02.parse_and_check_game 0 (bytes "Game 1: 3 red\x0c")
          { number := 0, blue := 0, red := 0, green := 0 } 0
          = .ret 0 { game := { number := 1, blue := 0, red := 3, green := 0 }, cursor := 13,
                     number := some 0 } := by
  decide

/-- C15, amended: a scan position that holds a space, a comma or a carriage
return is skipped: the pass moves the cursor by exactly one character, changes
neither the counters, the pending count nor the id, and does not return. -/
theorem separator_is_skipped (junk : Int) (line : List Nat) (s : Day02.Scan) (c : Nat)
    (hchar : Day02.charAt line s.cursor = some c) (hc : c = 32 ∨ c = 44 ∨ c = 13) :
    Day02.body junk line s
      = .running { game := s.game, cursor := s.cursor + 1, number := s.number } :=
  Day02.body_separator junk line s c hchar hc

theorem separator_is_skipped_witness :
    Day02.body 0 (bytes "Game 1: 3 red,\r4 blue")
        { game := { number := 1, blue := 0, red := 3, green := 0 }, cursor := 14,
          number := some 3 }
      = .running { game := { number := 1, blue := 0, red := 3, green := 0 }, cursor := 14 + 1,
                   number := some 3 } :=
  separator_is_skipped 0 (bytes "Game 1: 3 red,\r4 blue")
    { game := { number := 1, blue := 0, red := 3, green := 0 }, cursor := 14, number := some 3 }
    13 (by decide) (Or.inr (Or.inr rfl))

/-- C16: when the scan comes to a loop head on an ASCII letter other than r, g
and b, `parse_and_check_game` returns 0 there: the cursor stays on the letter
and the counters and the id are as they were. -/
theorem unknown_letter_returns_zero (junk : Int) (line : List Nat) (game : Day02.game_t)
    (cursor : Nat) (s : Day02.Scan) (c : Nat)
    (harr : Day02.arrivesAt junk line game cursor s)
    (hchar : Day02.charAt line s.cursor = some c) (hletter : Day02.isLetter c = true)
    (hr : c ≠ 114) (hg : c ≠ 103) (hb : c ≠ 98) :
    Day02.parse_and_check_game junk line game cursor
      = .ret 0 { game := s.game, cursor := s.cursor, number := some 0 } :=
  Day02.arrives_result junk line game cursor s _ harr
    (Day02.body_letter junk line s c hchar hletter hr hg hb) (by simp)

theorem unknown_letter_returns_zero_witness :
    Day02.parse_and_check_game 0 (bytes "Game 1: 3 yellow")
        { number := 0, blue := 0, red := 0, green := 0 } 0
      = .ret 0 { game := { number := 1, blue := 0, red := 0, green := 0 }, cursor := 10,
                 number := some 0 } :=
  unknown_letter_returns_zero 0 (bytes "Game 1: 3 yellow")
    { number := 0, blue := 0, red := 0, green := 0 } 0
    { game := { number := 1, blue := 0, red := 0, green := 0 }, cursor := 10, number := some 3 }
    121
    ⟨{ game := { number := 1, blue := 0, red := 0, green := 0 }, cursor := 7, number := none },
      2, by decide, by decide⟩
    (by decide) (by decide) (by decide) (by decide) (by decide)

/-- C17: two lines that differ only in their first four characters give the
same outcome of `parse_and_check_game`: the same value, id, counters and
cursor. -/
theorem game_word_is_not_checked (junk : Int) (a b rest : List Nat) (game : Day02.game_t)
    (ha : a.length = 4) (hb : b.length = 4) :
    Day02.parse_and_check_game junk (a ++ rest) game 0
      = Day02.parse_and_check_game junk (b ++ rest) game 0 :=
  Day02.parse_skip junk a b rest game 0 (by omega) (by omega)

theorem game_word_is_not_checked_witness :
    Day02.parse_and_check_game 0 (bytes "Game" ++ bytes " 7: 3 red, 20 blue\n")
        { number := 0, blue := 0, red := 0, green := 0 } 0
      = Day02.parse_and_check_game 0 (bytes "Xyzw" ++ bytes " 7: 3 red, 20 blue\n")
        { number := 0, blue := 0, red := 0, green := 0 } 0 :=
  game_word_is_not_checked 0 (bytes "Game") (bytes "Xyzw") (bytes " 7: 3 red, 20 blue\n")
    { number := 0, blue := 0, red := 0, green := 0 } (by decide) (by decide)

/-- C11: in the scan of a well-formed record, at every loop head on a semicolon
or on the line terminator the cursor stands right behind a group of the record
(a record without groups counting as one empty group), the three counters are
the totals that this group declares for red, green and blue, and
`game->number` is the id; the pass at a semicolon with counters within the
thresholds goes on with the three counters at 0 and the id kept. -/
theorem counters_at_group_end (junk : Int) (r : Day02.Record) (tail : List Nat)
    (s : Day02.Scan) (c : Nat) (hwf : r.wellFormed = true)
    (htail : tail = [] ∨ ∃ t, tail = 10 :: t)
    (harr : Day02.arrivesAt junk (Day02.renderRecord r ++ tail)
      { number := 0, blue := 0, red := 0, green := 0 } 0 s)
    (hchar : Day02.charAt (Day02.renderRecord r ++ tail) s.cursor = some c)
    (hc : c = 59 ∨ c = 10 ∨ c = 0) :
    s.game.number = (r.idValue : Int)
      ∧ (∃ done g rest,
          (r.groups = done ++ g :: rest ∨ (r.groups = [] ∧ done = [] ∧ g = []))
            ∧ s.cursor = (Day02.header r ++ Day02.renderGroups (done ++ [g])).length
            ∧ s.game.red = (Day02.groupTotal .red g : Int)
            ∧ s.game.green = (Day02.groupTotal .green g : Int)
            ∧ s.game.blue = (Day02.groupTotal .blue g : Int))
      ∧ (c = 59 → Day02.is_game_passed s.game = true →
          Day02.body junk (Day02.renderRecord r ++ tail) s
            = .running { game := { number := (r.idValue : Int), blue := 0, red := 0, green := 0 },
                         cursor := s.cursor + 1, number := s.number }) := by
  obtain ⟨hid, hidr, hnum, hpos, hrange⟩ := Day02.wellFormed_parts r hwf
  obtain ⟨hn, hbound, -⟩ := Day02.record_heads junk r tail hid hnum hpos htail s harr
  have hcl : clampLong (r.idValue : Int) = (r.idValue : Int) :=
    Day02.clampLong_of_range _ (by omega) (by omega)
  have hb : Day02.isBoundary c = true := by
    rcases hc with h | h | h <;> subst h <;> decide
  obtain ⟨done, g, rest, hg, hcur, hgame⟩ := hbound c hchar hb
  have hgr : Day02.groupInRange g = true := by
    rcases hg with h | ⟨-, -, h⟩
    · exact hrange g (by simp [h])
    · subst h
      decide
  have hnumber : s.game.number = (r.idValue : Int) := by rw [hn, hcl]
  refine ⟨hnumber, ⟨done, g, rest, hg, ?_, ?_, ?_, ?_⟩, ?_⟩
  · rw [hcur, Day02.renderGroups_snoc]
    simp
  · rw [hgame]
    exact Day02.tally_totals _ g hgr .red
  · rw [hgame]
    exact Day02.tally_totals _ g hgr .green
  · rw [hgame]
    exact Day02.tally_totals _ g hgr .blue
  · intro h59 hpass
    subst h59
    rw [Day02.body_charAt junk _ s 59 hchar]
    simp [Day02.dispatch, hpass, hnumber]

theorem counters_at_group_end_witness :
    (4 : Int) = (Day02.groupTotal .red [Day02.draw 3 .blue, Day02.draw 4 .red] : Int)
      ∧ (1 : Int) = (Day02.sampleRecord.idValue : Int)
      ∧ ∃ done g rest,
          (Day02.sampleRecord.groups = done ++ g :: rest
              ∨ (Day02.sampleRecord.groups = [] ∧ done = [] ∧ g = []))
            ∧ 21 = (Day02.header Day02.sampleRecord ++ Day02.renderGroups (done ++ [g])).length
            ∧ (4 : Int) = (Day02.groupTotal .red g : Int)
            ∧ (0 : Int) = (Day02.groupTotal .green g : Int)
            ∧ (3 : Int) = (Day02.groupTotal .blue g : Int) :=
  ⟨by decide,
    (counters_at_group_end 0 Day02.sampleRecord [10]
      { game := { number := 1, blue := 3, red := 4, green := 0 }, cursor := 21, number := some 4 }
      59 (by decide) (Or.inr ⟨[], rfl⟩)
      ⟨{ game := { number := 1, blue := 0, red := 0, green := 0 }, cursor := 7, number := none },
        7, by decide, by decide⟩
      (by decide) (Or.inl rfl)).1,
    (counters_at_group_end 0 Day02.sampleRecord [10]
      { game := { number := 1, blue := 3, red := 4, green := 0 }, cursor := 21, number := some 4 }
      59 (by decide) (Or.inr ⟨[], rfl⟩)
      ⟨{ game := { number := 1, blue := 0, red := 0, green := 0 }, cursor := 7, number := none },
        7, by decide, by decide⟩
      (by decide) (Or.inl rfl)).2.1⟩

/-- C14: in the scan of a well-formed record, at every loop head on r, b or g
the cursor stands on the color word of a pair of the line and the local
`number` holds the converted count of that same pair; the value read from
`number` does not depend on what the variable held before its first
assignment. -/
theorem pending_count_is_set (junk : Int) (r : Day02.Record) (tail : List Nat)
    (s : Day02.Scan) (c : Nat) (hwf : r.wellFormed = true)
    (htail : tail = [] ∨ ∃ t, tail = 10 :: t)
    (harr : Day02.arrivesAt junk (Day02.renderRecord r ++ tail)
      { number := 0, blue := 0, red := 0, green := 0 } 0 s)
    (hchar : Day02.charAt (Day02.renderRecord r ++ tail) s.cursor = some c)
    (hc : c = 114 ∨ c = 98 ∨ c = 103) :
    ∃ pre d rest, Day02.renderRecord r ++ tail = pre ++ Day02.renderDraw d ++ rest
      ∧ Day02.isNumeral d.count = true
      ∧ s.cursor = pre.length + d.count.length + 1
      ∧ s.number = some (clampLong (d.value : Int))
      ∧ ∀ other : Int, Day02.pending other s = clampLong (d.value : Int) := by
  obtain ⟨hid, -, hnum, hpos, -⟩ := Day02.wellFormed_parts r hwf
  obtain ⟨-, -, hcolor⟩ := Day02.record_heads junk r tail hid hnum hpos htail s harr
  have hl : Day02.isColorLetter c = true := by
    rcases hc with h | h | h <;> subst h <;> decide
  obtain ⟨pre, d, rest, hline, hd, hcur, hnumber⟩ := hcolor c hchar hl
  exact ⟨pre, d, rest, hline, hd, hcur, hnumber, fun other => by simp [Day02.pending, hnumber]⟩

theorem pending_count_is_set_witness :
    ∃ pre d rest, Day02.renderRecord Day02.sampleRecord ++ [10]
        = pre ++ Day02.renderDraw d ++ rest
      ∧ Day02.isNumeral d.count = true
      ∧ 18 = pre.length + d.count.length + 1
      ∧ some (4 : Int) = some (clampLong (d.value : Int))
      ∧ ∀ other : Int,
          Day02.pending other
            { game := { number := 1, blue := 3, red := 0, green := 0 }, cursor := 18,
              number := some 4 } = clampLong (d.value : Int) :=
  pending_count_is_set 0 Day02.sampleRecord [10]
    { game := { number := 1, blue := 3, red := 0, green := 0 }, cursor := 18, number := some 4 }
    114 (by decide) (Or.inr ⟨[], rfl⟩)
    ⟨{ game := { number := 1, blue := 0, red := 0, green := 0 }, cursor := 7, number := none },
      6, by decide, by decide⟩
    (by decide) (Or.inl rfl)

/-- C13: in the scan of a well-formed record in which no group closed by a
semicolon violates the thresholds, every loop head on r, b or g stands on the
first letter of a color word of the line and the pass moves the cursor to the
character right behind that word; the function returns with the cursor on the
line terminator that follows the text of the record. -/
theorem color_words_and_landing (junk : Int) (r : Day02.Record) (tail : List Nat)
    (hwf : r.wellFormed = true) (htail : tail = [] ∨ ∃ t, tail = 10 :: t)
    (hpass : ∀ g ∈ r.groups.dropLast, Day02.groupOk g = true) :
    (∀ s c, Day02.arrivesAt junk (Day02.renderRecord r ++ tail)
          { number := 0, blue := 0, red := 0, green := 0 } 0 s →
        Day02.charAt (Day02.renderRecord r ++ tail) s.cursor = some c →
        (c = 114 ∨ c = 98 ∨ c = 103) →
        ∃ (pre : List Nat) (col : Day02.Color) (rest : List Nat) (s1 : Day02.Scan),
          Day02.renderRecord r ++ tail = pre ++ Day02.Color.spelling col ++ rest
          ∧ s.cursor = pre.length
          ∧ Day02.body junk (Day02.renderRecord r ++ tail) s = .running s1
          ∧ s1.cursor = pre.length + (Day02.Color.spelling col).length)
      ∧ ∃ v st, Day02.parse_and_check_game junk (Day02.renderRecord r ++ tail)
            { number := 0, blue := 0, red := 0, green := 0 } 0 = .ret v st
          ∧ st.cursor = (Day02.renderRecord r).length
          ∧ (Day02.charAt (Day02.renderRecord r ++ tail) st.cursor = some 10
              ∨ Day02.charAt (Day02.renderRecord r ++ tail) st.cursor = some 0) := by
  obtain ⟨hid, -, hnum, hpos, -⟩ := Day02.wellFormed_parts r hwf
  constructor
  · intro s c harr hchar hc
    obtain ⟨-, -, hcolor⟩ := Day02.record_heads junk r tail hid hnum hpos htail s harr
    have hl : Day02.isColorLetter c = true := by
      rcases hc with h | h | h <;> subst h <;> decide
    exact Day02.body_atColor junk _ s (hcolor c hchar hl)
  · obtain ⟨v, st, hret, hcur⟩ := Day02.record_landing junk r tail hwf htail hpass
    obtain ⟨c, hchar, hc⟩ := Day02.terminator_char (Day02.renderRecord r ++ tail)
      (Day02.renderRecord r) tail rfl htail
    refine ⟨v, st, hret, hcur, ?_⟩
    rw [hcur]
    rcases hc with h | h
    · exact Or.inl (h ▸ hchar)
    · exact Or.inr (h ▸ hchar)

theorem color_words_and_landing_witness :
    ∃ v st, Day02.parse_and_check_game 0 (Day02.renderRecord Day02.sampleRecord ++ [10])
          { number := 0, blue := 0, red := 0, green := 0 } 0 = .ret v st
      ∧ st.cursor = (Day02.renderRecord Day02.sampleRecord).length
      ∧ (Day02.charAt (Day02.renderRecord Day02.sampleRecord ++ [10]) st.cursor = some 10
          ∨ Day02.charAt (Day02.renderRecord Day02.sampleRecord ++ [10]) st.cursor = some 0) :=
  (color_words_and_landing 0 Day02.sampleRecord [10] (by decide) (Or.inr ⟨[], rfl⟩)
    (by decide)).2

